import Mathlib

/-!
Verification development for the Chat-App-Server repository.

The security-relevant core of the repository is the vendored djwt v2.4 JSON
Web Token library (`mod.ts`, `algorithm.ts`, `signature.ts`) together with the
application entry point `index.ts` that issues and verifies HS256 tokens.

This file gives a shallow embedding of that code:

* JavaScript strings are modelled as `List Char` (`Str`); byte sequences as
  `List Nat` with values below 256.
* The platform primitives that the source calls but that are not part of the
  repository (TextEncoder/TextDecoder, `JSON.stringify`/`JSON.parse`, the
  std `base64url` codec re-exported by djwt's `deps.ts`, `crypto.subtle`)
  are modelled executably.  JSON numbers are modelled as integers (every
  numeric value appearing in the application's tokens is a whole number of
  seconds), and `crypto.subtle` is an explicit parameter (`SubtleCrypto`),
  since the MAC primitive is an external collaborator of the code.
* Fallible operations return `Except JsError _`, mirroring thrown exceptions;
  `JsError` records the JavaScript error class (`Error`/`RangeError`/
  `TypeError`) and message.
* Clock readings (`Date.now()`, milliseconds) are explicit `Int` parameters.
  Time comparisons of the source (`exp + leeway < Date.now() / 1000`) are
  carried out in exact arithmetic, scaled to milliseconds.
-/

set_option linter.unusedVariables false

abbrev Str := List Char

/-! ### JavaScript string helpers

`splitOnDot` models `jwt.split(".")`; `beforeLastDot` models
`jwt.slice(0, jwt.lastIndexOf("."))` (when no dot occurs, `lastIndexOf`
returns -1 and `slice(0, -1)` drops the final character). -/

def splitOnDot : Str → List Str
  | [] => [[]]
  | c :: cs =>
    match splitOnDot cs with
    | [] => [[c]]
    | s :: ss => if c = '.' then [] :: s :: ss else (c :: s) :: ss

def beforeLastDot (s : Str) : Str :=
  if '.' ∈ s then
    ((s.reverse.dropWhile (fun c => c ≠ '.')).tail).reverse
  else
    s.dropLast

/-! ### UTF-8

Models `TextEncoder.encode` and `TextDecoder.decode` (the decoder is the
default non-fatal one: ill-formed byte sequences produce U+FFFD replacement
characters instead of throwing; the exact resynchronization after an
ill-formed sequence is abstracted — the decoder is total, agrees with the
platform on all well-formed input, and never throws). -/

def utf8EncodeChar (c : Char) : List Nat :=
  if c.toNat < 0x80 then [c.toNat]
  else if c.toNat < 0x800 then [0xC0 + c.toNat / 64, 0x80 + c.toNat % 64]
  else if c.toNat < 0x10000 then
    [0xE0 + c.toNat / 4096, 0x80 + c.toNat / 64 % 64, 0x80 + c.toNat % 64]
  else
    [0xF0 + c.toNat / 262144, 0x80 + c.toNat / 4096 % 64, 0x80 + c.toNat / 64 % 64,
      0x80 + c.toNat % 64]

def utf8Encode : Str → List Nat
  | [] => []
  | c :: cs => utf8EncodeChar c ++ utf8Encode cs

def replChar : Char := Char.ofNat 0xFFFD

def isContByte (b : Nat) : Bool := decide (0x80 ≤ b) && decide (b < 0xC0)

mutual
def utf8Decode : List Nat → Str
  | [] => []
  | b :: bs =>
    if b < 0x80 then Char.ofNat b :: utf8Decode bs
    else if b < 0xC2 then replChar :: utf8Decode bs
    else if b < 0xE0 then utf8Decode2 b bs
    else if b < 0xF0 then utf8Decode3 b bs
    else if b < 0xF5 then utf8Decode4 b bs
    else replChar :: utf8Decode bs
termination_by structural l => l

def utf8Decode2 (b : Nat) : List Nat → Str
  | [] => [replChar]
  | b1 :: bs1 =>
    if isContByte b1 then Char.ofNat ((b - 0xC0) * 64 + (b1 - 0x80)) :: utf8Decode bs1
    else replChar :: utf8Decode bs1
termination_by structural l => l

def utf8Decode3 (b : Nat) : List Nat → Str
  | b1 :: b2 :: bs2 =>
    if isContByte b1 && isContByte b2 then
      if 0x800 ≤ (b - 0xE0) * 4096 + (b1 - 0x80) * 64 + (b2 - 0x80) ∧
          ((b - 0xE0) * 4096 + (b1 - 0x80) * 64 + (b2 - 0x80) < 0xD800 ∨
            0xE000 ≤ (b - 0xE0) * 4096 + (b1 - 0x80) * 64 + (b2 - 0x80)) then
        Char.ofNat ((b - 0xE0) * 4096 + (b1 - 0x80) * 64 + (b2 - 0x80)) :: utf8Decode bs2
      else replChar :: utf8Decode bs2
    else replChar :: utf8Decode bs2
  | _ => [replChar]
termination_by structural l => l

def utf8Decode4 (b : Nat) : List Nat → Str
  | b1 :: b2 :: b3 :: bs3 =>
    if isContByte b1 && isContByte b2 && isContByte b3 then
      if 0x10000 ≤ (b - 0xF0) * 262144 + (b1 - 0x80) * 4096 + (b2 - 0x80) * 64 + (b3 - 0x80) ∧
          (b - 0xF0) * 262144 + (b1 - 0x80) * 4096 + (b2 - 0x80) * 64 + (b3 - 0x80) < 0x110000 then
        Char.ofNat ((b - 0xF0) * 262144 + (b1 - 0x80) * 4096 + (b2 - 0x80) * 64 + (b3 - 0x80)) ::
          utf8Decode bs3
      else replChar :: utf8Decode bs3
    else replChar :: utf8Decode bs3
  | _ => [replChar]
termination_by structural l => l
end

/-! ### Base64url codec

Modelled from the spec: djwt's `deps.ts` re-exports the Deno std `base64url`
module, which is not among the repository's source files; §4.1 of the spec
describes it.  `b64urlEncode` emits the unpadded base64url alphabet
(`+`→`-`, `/`→`_`, no trailing `=`); `b64urlDecode` accepts both padded and
unpadded input and fails (returns `none`) on characters outside the
alphabet or on an impossible length (4k+1 data characters). -/

def b64Alphabet : Str :=
  "ABCDEFGHIJKLMNOPQRSTUVWXYZabcdefghijklmnopqrstuvwxyz0123456789-_".toList

def b64Char (n : Nat) : Char := b64Alphabet.getD n 'A'

def b64IndexAux (c : Char) : Str → Nat → Option Nat
  | [], _ => none
  | a :: as, i => if a = c then some i else b64IndexAux c as (i + 1)

def b64Index (c : Char) : Option Nat := b64IndexAux c b64Alphabet 0

def b64urlEncode : List Nat → Str
  | [] => []
  | [b1] => [b64Char (b1 / 4), b64Char (b1 % 4 * 16)]
  | [b1, b2] => [b64Char (b1 / 4), b64Char (b1 % 4 * 16 + b2 / 16), b64Char (b2 % 16 * 4)]
  | b1 :: b2 :: b3 :: rest =>
    b64Char (b1 / 4) :: b64Char (b1 % 4 * 16 + b2 / 16) :: b64Char (b2 % 16 * 4 + b3 / 64) ::
      b64Char (b3 % 64) :: b64urlEncode rest

def stripPadding (s : Str) : Str := (s.reverse.dropWhile (fun c => c = '=')).reverse

def b64Vals : Str → Option (List Nat)
  | [] => some []
  | c :: cs =>
    match b64Index c, b64Vals cs with
    | some v, some vs => some (v :: vs)
    | _, _ => none

def b64Bytes : List Nat → Option (List Nat)
  | [] => some []
  | [_] => none
  | [v1, v2] => some [v1 * 4 + v2 / 16]
  | [v1, v2, v3] => some [v1 * 4 + v2 / 16, v2 % 16 * 16 + v3 / 4]
  | v1 :: v2 :: v3 :: v4 :: rest =>
    match b64Bytes rest with
    | some bs => some ((v1 * 4 + v2 / 16) :: (v2 % 16 * 16 + v3 / 4) :: (v3 % 4 * 64 + v4) :: bs)
    | none => none

def b64urlDecode (s : Str) : Option (List Nat) :=
  match b64Vals (stripPadding s) with
  | some vs => b64Bytes vs
  | none => none

/-! ### JSON values

The dynamic JSON values handled by `JSON.stringify` / `JSON.parse` in the
source.  JSON numbers are modelled as integers: every numeric claim the
program produces or inspects (`exp`, `nbf`, `getNumericDate` output) is a
whole number of seconds; fractional literals are simply not parsed by the
model.  Object fields keep insertion order, as JavaScript objects do. -/

mutual
inductive Json where
  | null : Json
  | bool (b : Bool) : Json
  | num (n : Int) : Json
  | str (s : Str) : Json
  | arr (elems : JsonList) : Json
  | obj (fields : JsonFields) : Json
inductive JsonList where
  | nil : JsonList
  | cons (head : Json) (tail : JsonList) : JsonList
inductive JsonFields where
  | nil : JsonFields
  | cons (key : Str) (value : Json) (tail : JsonFields) : JsonFields
end
deriving instance DecidableEq for Json
deriving instance Repr for Json

/-- First-match association lookup, the model of JavaScript property access
`obj[k]` on a parsed JSON object (JavaScript objects have unique keys, so
first-match and last-match coincide on any value a program can build). -/
def jsonLookup (k : Str) : JsonFields → Option Json
  | .nil => none
  | .cons k1 v fs => if k1 = k then some v else jsonLookup k fs

/-- `o?.k` — property access returning `none` (undefined) unless the value
is an object carrying the field. -/
def jsGet (j : Json) (k : Str) : Option Json :=
  match j with
  | .obj fs => jsonLookup k fs
  | _ => none

/-! ### JSON.stringify

Models `JSON.stringify` on the `Json` universe: compact output, insertion
order of fields, standard string escaping (`\"`, `\\`, control-character
short forms, `\u00XX` for other control characters). -/

def hexDigit (n : Nat) : Char := "0123456789abcdef".toList.getD n '0'

def escapeChar (c : Char) : Str :=
  if c = '"' then ['\\', '"']
  else if c = '\\' then ['\\', '\\']
  else if c = Char.ofNat 8 then ['\\', 'b']
  else if c = Char.ofNat 9 then ['\\', 't']
  else if c = Char.ofNat 10 then ['\\', 'n']
  else if c = Char.ofNat 12 then ['\\', 'f']
  else if c = Char.ofNat 13 then ['\\', 'r']
  else if c.toNat < 0x20 then ['\\', 'u', '0', '0', hexDigit (c.toNat / 16), hexDigit (c.toNat % 16)]
  else [c]

def escapeStr : Str → Str
  | [] => []
  | c :: cs => escapeChar c ++ escapeStr cs

def digitChar (n : Nat) : Char := "0123456789".toList.getD n '0'

def natDigitsAux : Nat → Nat → Str
  | 0, _ => []
  | fuel + 1, n => if n < 10 then [digitChar n] else natDigitsAux fuel (n / 10) ++ [digitChar (n % 10)]

def natDigits (n : Nat) : Str := natDigitsAux (n + 1) n

def intToStr (n : Int) : Str :=
  if n < 0 then '-' :: natDigits n.natAbs else natDigits n.natAbs

mutual
def stringify (v : Json) : Str :=
  match v with
  | .null => "null".toList
  | .bool true => "true".toList
  | .bool false => "false".toList
  | .num n => intToStr n
  | .str s => '"' :: (escapeStr s ++ ['"'])
  | .arr .nil => "[]".toList
  | .arr (.cons e es) => '[' :: (stringify e ++ stringifyElems es)
  | .obj .nil => ['\x7b', '\x7d']
  | .obj (.cons k v1 fs) =>
    '\x7b' :: ('"' :: (escapeStr k ++ ('"' :: ':' :: stringify v1)) ++ stringifyFields fs)
termination_by structural v

def stringifyElems (es : JsonList) : Str :=
  match es with
  | .nil => [']']
  | .cons e es1 => ',' :: (stringify e ++ stringifyElems es1)
termination_by structural es

def stringifyFields (fs : JsonFields) : Str :=
  match fs with
  | .nil => ['\x7d']
  | .cons k v fs1 => ',' :: ('"' :: (escapeStr k ++ ('"' :: ':' :: stringify v)) ++ stringifyFields fs1)
termination_by structural fs
end

/-! ### JSON.parse

Models `JSON.parse` on the `Json` universe.  Whitespace between tokens is
accepted; string escapes (including `\uXXXX` with surrogate pairs) are
processed; numbers are parsed as integers (a fractional or exponent part
makes the surrounding parse fail, consistent with the integer-only value
universe of the model); lone surrogates decode to U+FFFD since Lean
characters are Unicode scalar values.  The recursion is fuelled; the
top-level entry point supplies more fuel than any input can consume, and a
fuel-exhausted parse is a failed parse (mirroring that deeply-nested input
makes the platform parser throw, which the jwt decoder catches). -/

def isWsChar (c : Char) : Bool :=
  decide (c = ' ') || decide (c = Char.ofNat 9) || decide (c = Char.ofNat 10) ||
    decide (c = Char.ofNat 13)

def skipWs (s : Str) : Str := s.dropWhile isWsChar

def isDigitChar (c : Char) : Bool := decide ('0' ≤ c) && decide (c ≤ '9')

def digitVal (c : Char) : Nat := c.toNat - 48

def hexVal (c : Char) : Option Nat :=
  if isDigitChar c then some (digitVal c)
  else if 'a' ≤ c ∧ c ≤ 'f' then some (c.toNat - 97 + 10)
  else if 'A' ≤ c ∧ c ≤ 'F' then some (c.toNat - 65 + 10)
  else none

def consStr (c : Char) : Option (Str × Str) → Option (Str × Str)
  | some (s, r) => some (c :: s, r)
  | none => none

def consStr2 (c1 c2 : Char) : Option (Str × Str) → Option (Str × Str)
  | some (s, r) => some (c1 :: c2 :: s, r)
  | none => none

mutual
def parseStringBody : Str → Option (Str × Str)
  | [] => none
  | c :: r =>
    if c = '"' then some ([], r)
    else if c = '\\' then parseEscape r
    else if c.toNat < 0x20 then none
    else consStr c (parseStringBody r)
termination_by structural s => s

def parseEscape : Str → Option (Str × Str)
  | [] => none
  | e :: r =>
    if e = '"' then consStr '"' (parseStringBody r)
    else if e = '\\' then consStr '\\' (parseStringBody r)
    else if e = '/' then consStr '/' (parseStringBody r)
    else if e = 'b' then consStr (Char.ofNat 8) (parseStringBody r)
    else if e = 'f' then consStr (Char.ofNat 12) (parseStringBody r)
    else if e = 'n' then consStr (Char.ofNat 10) (parseStringBody r)
    else if e = 'r' then consStr (Char.ofNat 13) (parseStringBody r)
    else if e = 't' then consStr (Char.ofNat 9) (parseStringBody r)
    else if e = 'u' then parseUnicodeEscape r
    else none
termination_by structural s => s

def parseUnicodeEscape : Str → Option (Str × Str)
  | h1 :: h2 :: h3 :: h4 :: r =>
    match hexVal h1, hexVal h2, hexVal h3, hexVal h4 with
    | some a, some b, some c, some d =>
      if 0xD800 ≤ ((a * 16 + b) * 16 + c) * 16 + d ∧ ((a * 16 + b) * 16 + c) * 16 + d < 0xDC00 then
        parseAfterHighSurrogate (((a * 16 + b) * 16 + c) * 16 + d) r
      else if 0xDC00 ≤ ((a * 16 + b) * 16 + c) * 16 + d ∧
          ((a * 16 + b) * 16 + c) * 16 + d < 0xE000 then
        consStr replChar (parseStringBody r)
      else consStr (Char.ofNat (((a * 16 + b) * 16 + c) * 16 + d)) (parseStringBody r)
    | _, _, _, _ => none
  | _ => none
termination_by structural s => s

def parseAfterHighSurrogate (hi : Nat) : Str → Option (Str × Str)
  | '\\' :: 'u' :: g1 :: g2 :: g3 :: g4 :: r =>
    match hexVal g1, hexVal g2, hexVal g3, hexVal g4 with
    | some a, some b, some c, some d =>
      if 0xDC00 ≤ ((a * 16 + b) * 16 + c) * 16 + d ∧ ((a * 16 + b) * 16 + c) * 16 + d < 0xE000 then
        consStr
          (Char.ofNat
            (0x10000 + (hi - 0xD800) * 1024 + (((a * 16 + b) * 16 + c) * 16 + d - 0xDC00)))
          (parseStringBody r)
      else if 0xD800 ≤ ((a * 16 + b) * 16 + c) * 16 + d ∧
          ((a * 16 + b) * 16 + c) * 16 + d < 0xDC00 then
        consStr2 replChar replChar (parseStringBody r)
      else consStr2 replChar (Char.ofNat (((a * 16 + b) * 16 + c) * 16 + d)) (parseStringBody r)
    | _, _, _, _ => none
  | [] => none
  | c :: r =>
    if c = '"' then some ([replChar], r)
    else if c = '\\' then
      match parseEscape r with
      | some (s, rest) => some (replChar :: s, rest)
      | none => none
    else if c.toNat < 0x20 then none
    else consStr2 replChar c (parseStringBody r)
termination_by structural s => s
end

def takeDigits : Str → Str × Str
  | [] => ([], [])
  | c :: r =>
    if isDigitChar c then
      match takeDigits r with
      | (ds, rest) => (c :: ds, rest)
    else ([], c :: r)

def digitsValAux : Str → Nat → Nat
  | [], acc => acc
  | c :: r, acc => digitsValAux r (acc * 10 + digitVal c)

def parseNat : Str → Option (Nat × Str)
  | [] => none
  | c :: r =>
    if c = '0' then some (0, r)
    else if isDigitChar c then
      match takeDigits r with
      | (ds, rest) => some (digitsValAux (c :: ds) 0, rest)
    else none

def parseNumberFrom : Str → Option (Json × Str)
  | [] => none
  | c :: r =>
    if c = '-' then
      match parseNat r with
      | some (n, rest) => some (.num (-(n : Int)), rest)
      | none => none
    else
      match parseNat (c :: r) with
      | some (n, rest) => some (.num (n : Int), rest)
      | none => none

mutual
def parseVal : Nat → Str → Option (Json × Str)
  | 0, _ => none
  | fuel + 1, s =>
    match skipWs s with
    | [] => none
    | c :: r =>
      if c = 'n' then
        match r with
        | 'u' :: 'l' :: 'l' :: r1 => some (.null, r1)
        | _ => none
      else if c = 't' then
        match r with
        | 'r' :: 'u' :: 'e' :: r1 => some (.bool true, r1)
        | _ => none
      else if c = 'f' then
        match r with
        | 'a' :: 'l' :: 's' :: 'e' :: r1 => some (.bool false, r1)
        | _ => none
      else if c = '"' then
        match parseStringBody r with
        | some (s1, r1) => some (.str s1, r1)
        | none => none
      else if c = '-' || isDigitChar c then parseNumberFrom (c :: r)
      else if c = '[' then
        match skipWs r with
        | ']' :: r1 => some (.arr .nil, r1)
        | r2 =>
          match parseElems fuel r2 with
          | some (es, r1) => some (.arr es, r1)
          | none => none
      else if c = '\x7b' then
        match skipWs r with
        | '\x7d' :: r1 => some (.obj .nil, r1)
        | r2 =>
          match parseFields fuel r2 with
          | some (fs, r1) => some (.obj fs, r1)
          | none => none
      else none

def parseElems : Nat → Str → Option (JsonList × Str)
  | 0, _ => none
  | fuel + 1, s =>
    match parseVal fuel s with
    | some (v, r) =>
      (match skipWs r with
       | ']' :: r1 => some (.cons v .nil, r1)
       | ',' :: r1 =>
         (match parseElems fuel r1 with
          | some (vs, r2) => some (.cons v vs, r2)
          | none => none)
       | _ => none)
    | none => none

def parseFields : Nat → Str → Option (JsonFields × Str)
  | 0, _ => none
  | fuel + 1, s =>
    match skipWs s with
    | '"' :: r =>
      (match parseStringBody r with
       | some (k, r1) =>
         (match skipWs r1 with
          | ':' :: r2 =>
            (match parseVal fuel r2 with
             | some (v, r3) =>
               (match skipWs r3 with
                | '\x7d' :: r4 => some (.cons k v .nil, r4)
                | ',' :: r4 =>
                  (match parseFields fuel r4 with
                   | some (fs, r5) => some (.cons k v fs, r5)
                   | none => none)
                | _ => none)
             | none => none)
          | _ => none)
       | none => none)
    | _ => none
end

/-- `JSON.parse`: parse one value, then require only trailing whitespace. -/
def jsonParse (s : Str) : Option Json :=
  match parseVal (s.length + 1) s with
  | some (v, rest) => if skipWs rest = [] then some v else none
  | none => none

/-! ### Errors

Thrown JavaScript errors are modelled as `Except JsError` results; `JsError`
records the error class (`Error` / `RangeError` / `TypeError`) and message. -/

inductive JsError where
  | error (msg : Str) : JsError
  | rangeError (msg : Str) : JsError
  | typeError (msg : Str) : JsError
deriving DecidableEq, Repr

def serializationInvalidMsg : Str := "The serialization of the jwt is invalid.".toList

def algParamMsg : Str := "The jwt's alg header parameter value must be a string.".toList

def claimsSetMsg : Str := "The jwt claims set is not a JSON object.".toList

def invalidClaimsMsg : Str := "The jwt has an invalid 'exp' or 'nbf' claim.".toList

def expiredMsg : Str := "The jwt is expired.".toList

def tooEarlyMsg : Str := "The jwt is used too early.".toList

def sigMismatchMsg : Str := "The jwt's signature does not match the verification signature.".toList

def noneKeyMsg : Str := "The alg 'none' does not allow a key.".toList

/-- Rendering of a header `alg` value in interpolated messages: `some s` is a
string value, `none` stands for a non-string (in practice `undefined`). -/
def algToStr : Option Str → Str
  | some s => s
  | none => "undefined".toList

def demandsKeyMsg (alg : Option Str) : Str :=
  "The alg '".toList ++ algToStr alg ++ "' demands a key.".toList

def notSupportedMsg (alg : Option Str) : Str :=
  "The jwt's alg '".toList ++ algToStr alg ++ "' is not supported.".toList

def algMismatchMsg (alg : Option Str) : Str :=
  "The jwt's alg '".toList ++ algToStr alg ++ "' does not match the key's algorithm.".toList

def typeErrorNameMsg : Str := "Cannot read properties of undefined (reading 'name')".toList

/-! ### Keys and the crypto collaborator

djwt v2.4 declares its key parameter as `CryptoKey | null`.  A `CryptoKey`
carries its `algorithm` record (name, optional hash name, optional named
curve, optional salt length) plus opaque key material.  `JsKey` is the
runtime value actually passed: the application (`index.ts`) passes a raw
`Uint8Array` (the `bytes` constructor), which is not a `CryptoKey` — its
`algorithm` property is `undefined`, which matters for the behaviour of
`algorithm.ts`'s `verify`.

`crypto.subtle`'s `sign`/`verify` are the external Web Crypto collaborator
and are an explicit parameter (`SubtleCrypto`) of every operation that uses
them. -/

structure AlgSpec where
  name : String
  hashName : Option String := none
  namedCurve : Option String := none
  saltLength : Option Nat := none
deriving DecidableEq, Repr

structure CryptoKey where
  algorithm : AlgSpec
  material : List Nat
deriving DecidableEq, Repr

inductive JsKey where
  | null : JsKey
  | cryptoKey (k : CryptoKey) : JsKey
  | bytes (b : List Nat) : JsKey
deriving DecidableEq, Repr

structure SubtleCrypto where
  sign : AlgSpec → CryptoKey → List Nat → List Nat
  verify : AlgSpec → CryptoKey → List Nat → List Nat → Bool

/-! ### algorithm.ts (src/unnamed/part_006) -/

namespace Algo

/-- `getAlgorithm` from algorithm.ts: maps a symbolic identifier to Web
Crypto parameters; unknown identifiers throw.  The argument is `some s` when
the JavaScript value is the string `s`; `none` models a non-string value
(`undefined`), which falls to the default branch exactly as an unknown
string does. -/
def getAlgorithm (alg : Option Str) : Except JsError AlgSpec :=
  if alg = some ("HS256").toList then .ok { name := "HMAC", hashName := some "SHA-256" }
  else if alg = some ("HS384").toList then .ok { name := "HMAC", hashName := some "SHA-384" }
  else if alg = some ("HS512").toList then .ok { name := "HMAC", hashName := some "SHA-512" }
  else if alg = some ("PS256").toList then
    .ok { name := "RSA-PSS", hashName := some "SHA-256", saltLength := some 32 }
  else if alg = some ("PS384").toList then
    .ok { name := "RSA-PSS", hashName := some "SHA-384", saltLength := some 48 }
  else if alg = some ("PS512").toList then
    .ok { name := "RSA-PSS", hashName := some "SHA-512", saltLength := some 64 }
  else if alg = some ("RS256").toList then
    .ok { name := "RSASSA-PKCS1-v1_5", hashName := some "SHA-256" }
  else if alg = some ("RS384").toList then
    .ok { name := "RSASSA-PKCS1-v1_5", hashName := some "SHA-384" }
  else if alg = some ("RS512").toList then
    .ok { name := "RSASSA-PKCS1-v1_5", hashName := some "SHA-512" }
  else if alg = some ("ES256").toList then
    .ok { name := "ECDSA", hashName := some "SHA-256", namedCurve := some "P-256" }
  else if alg = some ("ES384").toList then
    .ok { name := "ECDSA", hashName := some "SHA-384", namedCurve := some "P-384" }
  else .error (.error (notSupportedMsg alg))

def isHashedKeyAlgorithm (a : AlgSpec) : Bool := a.hashName.isSome

def isEcKeyAlgorithm (a : AlgSpec) : Bool := a.namedCurve.isSome

/-- `verify` from algorithm.ts: is the declared `alg` compatible with the
supplied key?  `none` (the identifier `"none"`) is compatible exactly with
the absence of a key; other identifiers demand a key whose `algorithm`
record matches in name and hash (or curve).  A `bytes` key (the raw
`Uint8Array` that `index.ts` passes) has `algorithm === undefined`, so the
name comparison `keyAlgorithm.name === algAlgorithm.name` throws a
`TypeError` — after `getAlgorithm` was evaluated, matching the source's
evaluation order. -/
def verify (alg : Option Str) (key : JsKey) : Except JsError Bool :=
  if alg = some ("none").toList then
    match key with
    | .null => .ok true
    | _ => .error (.error noneKeyMsg)
  else
    match key with
    | .null => .error (.error (demandsKeyMsg alg))
    | .cryptoKey k =>
      match getAlgorithm alg with
      | .error e => .error e
      | .ok algAlgorithm =>
        if k.algorithm.name = algAlgorithm.name then
          if isHashedKeyAlgorithm k.algorithm then
            .ok (decide (k.algorithm.hashName = algAlgorithm.hashName))
          else if isEcKeyAlgorithm k.algorithm then
            .ok (decide (k.algorithm.namedCurve = algAlgorithm.namedCurve))
          else .ok false
        else .ok false
    | .bytes _ =>
      match getAlgorithm alg with
      | .error e => .error e
      | .ok _ => .error (.typeError typeErrorNameMsg)

end Algo

/-! ### signature.ts (src/unnamed/part_002) -/

namespace Sig

/-- `create` from signature.ts: empty signature for a null key, otherwise
base64url of the MAC/signature over the UTF-8 bytes of the signing input. -/
def create (mac : SubtleCrypto) (alg : Option Str) (key : JsKey) (signingInput : Str) :
    Except JsError Str :=
  match key with
  | .null => .ok []
  | .cryptoKey k =>
    match Algo.getAlgorithm alg with
    | .error e => .error e
    | .ok a => .ok (b64urlEncode (mac.sign a k (utf8Encode signingInput)))
  | .bytes _ =>
    match Algo.getAlgorithm alg with
    | .error e => .error e
    | .ok _ => .error (.typeError typeErrorNameMsg)

/-- `verify` from signature.ts: for a null key the signature must be empty;
otherwise `crypto.subtle.verify` over the UTF-8 bytes of the signing
input. -/
def verify (mac : SubtleCrypto) (signature : List Nat) (key : JsKey) (alg : Option Str)
    (signingInput : Str) : Except JsError Bool :=
  match key with
  | .null => .ok (decide (signature.length = 0))
  | .cryptoKey k =>
    match Algo.getAlgorithm alg with
    | .error e => .error e
    | .ok a => .ok (mac.verify a k signature (utf8Encode signingInput))
  | .bytes _ =>
    match Algo.getAlgorithm alg with
    | .error e => .error e
    | .ok _ => .error (.typeError typeErrorNameMsg)

end Sig

/-! ### mod.ts (the gen-cached djwt v2.4 main module) -/

/-- `isExpired(exp, leeway) = exp + leeway < Date.now() / 1000`, carried out
in exact arithmetic scaled to milliseconds (`nowMs` is `Date.now()`). -/
def isExpired (exp leeway : Int) (nowMs : Int) : Bool :=
  decide ((exp + leeway) * 1000 < nowMs)

/-- `isTooEarly(nbf, leeway) = nbf - leeway > Date.now() / 1000`, scaled to
milliseconds. -/
def isTooEarly (nbf leeway : Int) (nowMs : Int) : Bool :=
  decide ((nbf - leeway) * 1000 > nowMs)

/-- `isObject`: non-null, `typeof === "object"`, not an array. -/
def isObject : Json → Bool
  | .obj _ => true
  | _ => false

/-- `hasInvalidTimingClaims`: some claim value is present (not `undefined`)
yet not of number type. -/
def hasInvalidTimingClaims (claimValues : List (Option Json)) : Bool :=
  claimValues.any fun cv =>
    match cv with
    | some (.num _) => false
    | some _ => true
    | none => false

inductive Seg where
  | json (j : Json) : Seg
  | bytes (b : List Nat) : Seg
deriving DecidableEq, Repr

def decodeB64Segs : List Str → Option (List (List Nat))
  | [] => some []
  | s :: ss =>
    match b64urlDecode s, decodeB64Segs ss with
    | some b, some bs => some (b :: bs)
    | _, _ => none

/-- The indexed second `.map` of `decode`: segments 0 and 1 are decoded as
UTF-8 then parsed as JSON, the rest stay raw bytes. -/
def decodeSegs : List (List Nat) → Nat → Option (List Seg)
  | [], _ => some []
  | b :: bs, i =>
    if i = 0 ∨ i = 1 then
      match jsonParse (utf8Decode b), decodeSegs bs (i + 1) with
      | some j, some segs => some (.json j :: segs)
      | _, _ => none
    else
      match decodeSegs bs (i + 1) with
      | some segs => some (.bytes b :: segs)
      | none => none

/-- `decode` from mod.ts: split on `.`, base64url-decode every segment,
JSON-parse segments 0 and 1, require exactly three segments.  The source
wraps the whole pipeline in `try/catch`, collapsing every failure
(including the segment-count check) into the single serialization error. -/
def decode (jwt : Str) : Except JsError (Json × Json × List Nat) :=
  match decodeB64Segs (splitOnDot jwt) with
  | none => .error (.error serializationInvalidMsg)
  | some bss =>
    match decodeSegs bss 0 with
    | none => .error (.error serializationInvalidMsg)
    | some [.json h, .json p, .bytes s] => .ok (h, p, s)
    | some _ => .error (.error serializationInvalidMsg)

/-- `header?.alg` as an optional string: `some s` iff the field is present
and a string. -/
def headerAlgString (h : Json) : Option Str :=
  match jsGet h ("alg").toList with
  | some (.str s) => some s
  | _ => none

/-- `typeof payload.exp === "number" && isExpired(payload.exp, 1)`. -/
def expExpired (payload : Json) (nowMs : Int) : Bool :=
  match jsGet payload ("exp").toList with
  | some (.num e) => isExpired e 1 nowMs
  | _ => false

/-- `typeof payload.nbf === "number" && isTooEarly(payload.nbf, 1)`. -/
def nbfTooEarly (payload : Json) (nowMs : Int) : Bool :=
  match jsGet payload ("nbf").toList with
  | some (.num n) => isTooEarly n 1 nowMs
  | _ => false

/-- `validate` from mod.ts: the header must carry a string `alg`; the claims
set must be a JSON object; `exp`/`nbf`, when present, must be numbers; then
the expiry and not-before windows are enforced with a fixed leeway of 1
second (`exp` first). -/
def validate (nowMs : Int) : Json × Json × List Nat → Except JsError (Json × Json × List Nat)
  | (header, payload, signature) =>
    if headerAlgString header = none then .error (.error algParamMsg)
    else if isObject payload then
      if hasInvalidTimingClaims [jsGet payload ("exp").toList, jsGet payload ("nbf").toList] then
        .error (.error invalidClaimsMsg)
      else if expExpired payload nowMs then .error (.rangeError expiredMsg)
      else if nbfTooEarly payload nowMs then .error (.rangeError tooEarlyMsg)
      else .ok (header, payload, signature)
    else .error (.error claimsSetMsg)

/-- `verify` from mod.ts: validate the decoded token, confirm the declared
algorithm is compatible with the key, then check the signature over the
bytes of the received token before its last `.` — never over re-serialized
JSON. -/
def verify (mac : SubtleCrypto) (nowMs : Int) (jwt : Str) (key : JsKey) : Except JsError Json :=
  match decode jwt with
  | .error e => .error e
  | .ok t =>
    match validate nowMs t with
    | .error e => .error e
    | .ok (header, payload, signature) =>
      match Algo.verify (headerAlgString header) key with
      | .error e => .error e
      | .ok true =>
        match Sig.verify mac signature key (headerAlgString header) (beforeLastDot jwt) with
        | .error e => .error e
        | .ok true => .ok payload
        | .ok false => .error (.error sigMismatchMsg)
      | .ok false => .error (.error (algMismatchMsg (headerAlgString header)))

/-- `createSigningInput`: base64url of the UTF-8 bytes of the serialized
header, a dot, the same for the payload. -/
def createSigningInput (header payload : Json) : Str :=
  b64urlEncode (utf8Encode (stringify header)) ++ '.' :: b64urlEncode (utf8Encode (stringify payload))

/-- `create` from mod.ts. -/
def create (mac : SubtleCrypto) (header payload : Json) (key : JsKey) : Except JsError Str :=
  match Algo.verify (headerAlgString header) key with
  | .error e => .error e
  | .ok true =>
    match Sig.create mac (headerAlgString header) key (createSigningInput header payload) with
    | .error e => .error e
    | .ok signature => .ok (createSigningInput header payload ++ '.' :: signature)
  | .ok false => .error (.error (algMismatchMsg (headerAlgString header)))

/-- `Math.round(m / 1000)` for an integer `m`, in exact integer arithmetic:
`⌊(m/1000) + 1/2⌋ = ⌊(2m + 1000) / 2000⌋`. -/
def jsRoundDiv1000 (m : Int) : Int := (2 * m + 1000).fdiv 2000

/-- Argument of `getNumericDate`: a `Date` (absolute milliseconds) or a
relative offset in seconds. -/
inductive NumericDateArg where
  | date (ms : Int) : NumericDateArg
  | seconds (s : Int) : NumericDateArg
deriving DecidableEq, Repr

/-- `getNumericDate` from mod.ts:
`Math.round((exp instanceof Date ? exp.getTime() : Date.now() + exp * 1000) / 1000)`. -/
def getNumericDate (nowMs : Int) : NumericDateArg → Int
  | .date ms => jsRoundDiv1000 ms
  | .seconds s => jsRoundDiv1000 (nowMs + s * 1000)

/-! ### Error-kind taxonomy

Modelled from the spec: §7 names the failure kinds of the Token Service.
`classify` maps each error the embedded code can throw to its spec-level
kind; errors outside the documented taxonomy (such as the `TypeError`
produced by a non-`CryptoKey` key) are `unexpected`. -/

inductive ErrorKind where
  | malformedToken : ErrorKind
  | unsupportedAlgorithm : ErrorKind
  | algorithmMismatch : ErrorKind
  | invalidClaims : ErrorKind
  | tokenExpired : ErrorKind
  | tokenNotYetValid : ErrorKind
  | signatureMismatch : ErrorKind
  | unexpected : ErrorKind
deriving DecidableEq, Repr

def classify (e : JsError) : ErrorKind :=
  match e with
  | .error m =>
    if m = serializationInvalidMsg then .malformedToken
    else if m = algParamMsg then .malformedToken
    else if m = claimsSetMsg then .malformedToken
    else if m = invalidClaimsMsg then .invalidClaims
    else if m = sigMismatchMsg then .signatureMismatch
    else if m = noneKeyMsg then .algorithmMismatch
    else if ("The alg '".toList).isPrefixOf m ∧ ("' demands a key.".toList).isSuffixOf m then
      .algorithmMismatch
    else if ("The jwt's alg '".toList).isPrefixOf m ∧
        ("' does not match the key's algorithm.".toList).isSuffixOf m then
      .algorithmMismatch
    else if ("The jwt's alg '".toList).isPrefixOf m ∧
        ("' is not supported.".toList).isSuffixOf m then
      .unsupportedAlgorithm
    else .unexpected
  | .rangeError m =>
    if m = expiredMsg then .tokenExpired
    else if m = tooEarlyMsg then .tokenNotYetValid
    else .unexpected
  | .typeError _ => .unexpected

/-! ### index.ts (the application) -/

/-- The application's JWT secret.  `index.ts` reads `JWT_SECRET_KEY` from
the environment with the documented fallback `"default-secret-key"`; the
environment is an external collaborator, so the model uses the fallback
(no claim depends on the secret's value). -/
def jwtSecretKey : Str := "default-secret-key".toList

/-- `new TextEncoder().encode(JWT_SECRET_KEY)` — a raw `Uint8Array`, not an
imported `CryptoKey`. -/
def appKey : JsKey := .bytes (utf8Encode jwtSecretKey)

/-- `generateToken` from index.ts: header `{alg: "HS256", typ: "JWT"}`,
payload `{iss: username, exp: getNumericDate(60 * 60)}`. -/
def generateToken (mac : SubtleCrypto) (nowMs : Int) (username : Str) : Except JsError Str :=
  create mac
    (Json.obj (.cons ("alg").toList (Json.str ("HS256").toList)
      (.cons ("typ").toList (Json.str ("JWT").toList) .nil)))
    (Json.obj (.cons ("iss").toList (Json.str username)
      (.cons ("exp").toList (Json.num (getNumericDate nowMs (.seconds (60 * 60)))) .nil)))
    appKey

/-- `getUsernameFromToken` from index.ts: `null` for a missing token; every
verification failure is caught and becomes `null`; on success the `iss`
claim is returned (`payload.iss as string` is a static-only cast).  The
call `verify(token, key, "HS256")` passes a third argument that djwt
v2.4's two-parameter `verify` ignores. -/
def getUsernameFromToken (mac : SubtleCrypto) (nowMs : Int) (token : Option Str) : Option Json :=
  match token with
  | none => none
  | some t =>
    match verify mac nowMs t appKey with
    | .ok payload => jsGet payload ("iss").toList
    | .error _ => none

/-- JavaScript truthiness on the `Json` universe (`if (!username)`). -/
def jsonTruthy : Json → Bool
  | .null => false
  | .bool b => b
  | .num n => decide (n ≠ 0)
  | .str s => decide (s ≠ [])
  | .arr _ => true
  | .obj _ => true

/-- The Deno KV store, modelled as an association list keyed by key paths;
`set` upserts.  Listing order is abstracted (no claim depends on it). -/
abbrev KVStore := List (List Json × Json)

def kvSet : KVStore → List Json → Json → KVStore
  | [], k, v => [(k, v)]
  | (k1, v1) :: rest, k, v =>
    if k1 = k then (k, v) :: rest else (k1, v1) :: kvSet rest k v

def keyMatches2 (k : List Json) (p1 p2 : Json) : Bool :=
  match k with
  | a :: b :: _ => decide (a = p1) && decide (b = p2)
  | _ => false

def kvListValues (kv : KVStore) (p1 p2 : Json) : List Json :=
  (kv.filter fun e => keyMatches2 e.1 p1 p2).map fun e => e.2

def listToJsonList : List Json → JsonList
  | [] => .nil
  | v :: vs => .cons v (listToJsonList vs)

/-- An HTTP response: status code and body text. -/
abbrev HttpResponse := Nat × Str

def invalidTokenBody : Str :=
  stringify (Json.obj (.cons ("error").toList (Json.str ("Invalid or missing token").toList) .nil))

def messageSentBody : Str :=
  stringify (Json.obj (.cons ("message").toList
    (Json.str ("Message sent successfully").toList) .nil))

/-- `handleSendMessage` from index.ts: authenticate via the bearer token; a
falsy username yields status 401 with the fixed error body; otherwise the
message is stored under `["messages", groupName, timestamp]` and a 200
response is returned. -/
def handleSendMessage (mac : SubtleCrypto) (nowMs : Int) (kv : KVStore)
    (groupName message : Json) (token : Option Str) (timestamp : Str) :
    KVStore × HttpResponse :=
  match getUsernameFromToken mac nowMs token with
  | none => (kv, (401, invalidTokenBody))
  | some u =>
    if jsonTruthy u then
      (kvSet kv [Json.str ("messages").toList, groupName, Json.str timestamp]
        (Json.obj (.cons ("from").toList u
          (.cons ("message").toList message
            (.cons ("timestamp").toList (Json.str timestamp) .nil)))),
       (200, messageSentBody))
    else (kv, (401, invalidTokenBody))

/-- `url.searchParams.get("groupName")`: a string, or `null` when absent. -/
def groupNameVal : Option Str → Json
  | some s => .str s
  | none => .null

/-- `handleGetMessages` from index.ts: authenticate via the bearer token; a
falsy username yields status 401 with the fixed error body; otherwise the
stored messages of the group are listed. -/
def handleGetMessages (mac : SubtleCrypto) (nowMs : Int) (kv : KVStore)
    (groupName : Option Str) (token : Option Str) : HttpResponse :=
  match getUsernameFromToken mac nowMs token with
  | none => (401, invalidTokenBody)
  | some u =>
    if jsonTruthy u then
      (200, stringify (Json.arr (listToJsonList
        (kvListValues kv (Json.str ("messages").toList) (groupNameVal groupName)))))
    else (401, invalidTokenBody)

/-- A bearer token is rejected by the handlers' shared authentication step:
either `getUsernameFromToken` yields no username (missing token or any
verification failure) or the username is falsy. -/
def authRejected (mac : SubtleCrypto) (nowMs : Int) (t : Option Str) : Bool :=
  match getUsernameFromToken mac nowMs t with
  | none => true
  | some u => !jsonTruthy u

/-- The spec's expiry condition over an optional `exp` claim: present and
`now > exp + leeway` (leeway 1, exact arithmetic scaled to milliseconds);
an absent claim never expires. -/
def expiredAt : Option Int → Int → Bool
  | some e, nowMs => decide ((e + 1) * 1000 < nowMs)
  | none, _ => false

/-- The spec's not-yet-valid condition over an optional `nbf` claim:
present and `now < nbf - leeway`; an absent claim is always valid. -/
def tooEarlyAt : Option Int → Int → Bool
  | some n, nowMs => decide (nowMs < (n - 1) * 1000)
  | none, _ => false

/-! ### Witness material

A concrete, executable `SubtleCrypto` for witnesses: a toy deterministic
MAC whose `verify` recomputes and compares, the shape shared by every MAC
family (HMAC verification in Web Crypto is recompute-and-compare). -/

def toySign (a : AlgSpec) (k : CryptoKey) (data : List Nat) : List Nat :=
  [(data.foldl (fun acc b => acc + b) 0 + k.material.foldl (fun acc b => acc + b) 0) % 251,
    data.length % 256]

def toyMac : SubtleCrypto where
  sign := toySign
  verify := fun a k s d => decide (s = toySign a k d)

/-- A second crypto provider whose `verify` accepts everything — used to
show algorithm-compatibility failures do not consult the signature. -/
def permissiveMac : SubtleCrypto where
  sign := toySign
  verify := fun _ _ _ _ => true

def hs256Key : CryptoKey where
  algorithm := { name := "HMAC", hashName := some "SHA-256" }
  material := [7, 11, 13]

def hs384Key : CryptoKey where
  algorithm := { name := "HMAC", hashName := some "SHA-384" }
  material := [7, 11, 13]

/-- A crypto provider is sound when verification accepts exactly-signed
data and signatures are byte sequences. -/
def SoundCrypto (mac : SubtleCrypto) : Prop :=
  (∀ a k d, mac.verify a k (mac.sign a k d) d = true) ∧
    ∀ a k d, ∀ b ∈ mac.sign a k d, b < 256

/-- The characters following a parsed number must not extend it (used to
state parser lemmas; a parsed number is followed by a non-digit). -/
def restOk (rest : Str) : Prop :=
  ∀ c, rest.head? = some c → isDigitChar c = false

/-! `cost` is the fuel consumed by the JSON parser on serializer output
(proof-side bookkeeping: one unit per value plus one per further list
element). -/

mutual
def cost (v : Json) : Nat :=
  match v with
  | .null => 1
  | .bool _ => 1
  | .num _ => 1
  | .str _ => 1
  | .arr es => 1 + costElems es
  | .obj fs => 1 + costFields fs
termination_by structural v

def costElems (es : JsonList) : Nat :=
  match es with
  | .nil => 0
  | .cons e es1 => 1 + cost e + costElems es1
termination_by structural es

def costFields (fs : JsonFields) : Nat :=
  match fs with
  | .nil => 0
  | .cons _ v fs1 => 1 + cost v + costFields fs1
termination_by structural fs
end

/-! ## Lemmas

### UTF-8 round trip -/

theorem utf8Decode_encodeChar (c : Char) (rest : List Nat) :
    utf8Decode (utf8EncodeChar c ++ rest) = c :: utf8Decode rest := by
  have hv : c.toNat < 0xD800 ∨ (0xDFFF < c.toNat ∧ c.toNat < 0x110000) := c.valid
  rw [utf8EncodeChar]
  by_cases h1 : c.toNat < 0x80
  · rw [if_pos h1]
    show utf8Decode (c.toNat :: rest) = _
    rw [utf8Decode, if_pos h1, Char.ofNat_toNat]
  · by_cases h2 : c.toNat < 0x800
    · rw [if_neg h1, if_pos h2]
      show utf8Decode ((0xC0 + c.toNat / 64) :: (0x80 + c.toNat % 64) :: rest) = _
      rw [utf8Decode, if_neg (by omega), if_neg (by omega), if_pos (by omega)]
      rw [utf8Decode2, if_pos (by simp only [isContByte, Bool.and_eq_true, decide_eq_true_eq]; omega)]
      rw [show (0xC0 + c.toNat / 64 - 0xC0) * 64 + (0x80 + c.toNat % 64 - 0x80) = c.toNat by omega]
      rw [Char.ofNat_toNat]
    · by_cases h3 : c.toNat < 0x10000
      · rw [if_neg h1, if_neg h2, if_pos h3]
        show utf8Decode ((0xE0 + c.toNat / 4096) :: (0x80 + c.toNat / 64 % 64) ::
          (0x80 + c.toNat % 64) :: rest) = _
        rw [utf8Decode, if_neg (by omega), if_neg (by omega), if_neg (by omega), if_pos (by omega)]
        rw [utf8Decode3,
          if_pos (by simp only [isContByte, Bool.and_eq_true, decide_eq_true_eq]; omega)]
        rw [show (0xE0 + c.toNat / 4096 - 0xE0) * 4096 + (0x80 + c.toNat / 64 % 64 - 0x80) * 64 +
          (0x80 + c.toNat % 64 - 0x80) = c.toNat by omega]
        rw [if_pos (by omega), Char.ofNat_toNat]
      · rw [if_neg h1, if_neg h2, if_neg h3]
        have hub : c.toNat < 0x110000 := by omega
        show utf8Decode ((0xF0 + c.toNat / 262144) :: (0x80 + c.toNat / 4096 % 64) ::
          (0x80 + c.toNat / 64 % 64) :: (0x80 + c.toNat % 64) :: rest) = _
        rw [utf8Decode, if_neg (by omega), if_neg (by omega), if_neg (by omega),
          if_neg (by omega), if_pos (by omega)]
        rw [utf8Decode4,
          if_pos (by simp only [isContByte, Bool.and_eq_true, decide_eq_true_eq]; omega)]
        rw [show (0xF0 + c.toNat / 262144 - 0xF0) * 262144 + (0x80 + c.toNat / 4096 % 64 - 0x80) * 4096 +
          (0x80 + c.toNat / 64 % 64 - 0x80) * 64 + (0x80 + c.toNat % 64 - 0x80) = c.toNat by omega]
        rw [if_pos (by omega), Char.ofNat_toNat]

theorem utf8Decode_encode_append (s : Str) (rest : List Nat) :
    utf8Decode (utf8Encode s ++ rest) = s ++ utf8Decode rest := by
  induction s with
  | nil => rw [utf8Encode, List.nil_append, List.nil_append]
  | cons c cs ih =>
    rw [utf8Encode, List.append_assoc, utf8Decode_encodeChar, ih, List.cons_append]

theorem utf8Decode_encode (s : Str) : utf8Decode (utf8Encode s) = s := by
  have h := utf8Decode_encode_append s []
  rw [List.append_nil] at h
  rw [h, utf8Decode, List.append_nil]

theorem utf8EncodeChar_lt_256 (c : Char) : ∀ b ∈ utf8EncodeChar c, b < 256 := by
  have hv : c.toNat < 0xD800 ∨ (0xDFFF < c.toNat ∧ c.toNat < 0x110000) := c.valid
  intro b hb
  rw [utf8EncodeChar] at hb
  by_cases h1 : c.toNat < 0x80
  · rw [if_pos h1] at hb
    simp only [List.mem_cons, List.not_mem_nil, or_false] at hb
    omega
  · by_cases h2 : c.toNat < 0x800
    · rw [if_neg h1, if_pos h2] at hb
      simp only [List.mem_cons, List.not_mem_nil, or_false] at hb
      rcases hb with h | h <;> omega
    · by_cases h3 : c.toNat < 0x10000
      · rw [if_neg h1, if_neg h2, if_pos h3] at hb
        simp only [List.mem_cons, List.not_mem_nil, or_false] at hb
        rcases hb with h | h | h <;> omega
      · rw [if_neg h1, if_neg h2, if_neg h3] at hb
        simp only [List.mem_cons, List.not_mem_nil, or_false] at hb
        rcases hb with h | h | h | h <;> omega

theorem utf8Encode_lt_256 (s : Str) : ∀ b ∈ utf8Encode s, b < 256 := by
  induction s with
  | nil => intro b hb; simp [utf8Encode] at hb
  | cons c cs ih =>
    intro b hb
    rw [utf8Encode] at hb
    rcases List.mem_append.mp hb with h | h
    · exact utf8EncodeChar_lt_256 c b h
    · exact ih b h

/-! ### Base64url round trip -/


theorem b64Char_props : ∀ v, v < 64 →
    b64Index (b64Char v) = some v ∧ b64Char v ≠ '=' ∧ b64Char v ≠ '.' := by decide

theorem dropWhile_eq_self_of_none (p : Char → Bool) (l : Str) (h : ∀ c ∈ l, p c = false) :
    l.dropWhile p = l := by
  cases l with
  | nil => rfl
  | cons c cs =>
    rw [List.dropWhile_cons, h c (by simp)]
    simp

theorem stripPadding_of_no_eq (s : Str) (h : ∀ c ∈ s, c ≠ '=') : stripPadding s = s := by
  rw [stripPadding, dropWhile_eq_self_of_none, List.reverse_reverse]
  intro c hc
  simp only [List.mem_reverse] at hc
  simp [h c hc]

theorem b64urlEncode_mem (bs : List Nat) (h : ∀ b ∈ bs, b < 256) :
    ∀ c ∈ b64urlEncode bs, c ≠ '=' ∧ c ≠ '.' := by
  match bs with
  | [] => intro c hc; simp [b64urlEncode] at hc
  | [b1] =>
    intro c hc
    have hb1 : b1 < 256 := h b1 (by simp)
    rw [b64urlEncode] at hc
    simp only [List.mem_cons, List.not_mem_nil, or_false] at hc
    rcases hc with hc | hc <;>
      (subst hc; exact (b64Char_props _ (by omega)).2)
  | [b1, b2] =>
    intro c hc
    have hb1 : b1 < 256 := h b1 (by simp)
    have hb2 : b2 < 256 := h b2 (by simp)
    rw [b64urlEncode] at hc
    simp only [List.mem_cons, List.not_mem_nil, or_false] at hc
    rcases hc with hc | hc | hc <;>
      (subst hc; exact (b64Char_props _ (by omega)).2)
  | b1 :: b2 :: b3 :: rest =>
    intro c hc
    have hb1 : b1 < 256 := h b1 (by simp)
    have hb2 : b2 < 256 := h b2 (by simp)
    have hb3 : b3 < 256 := h b3 (by simp)
    rw [b64urlEncode] at hc
    simp only [List.mem_cons, List.mem_append] at hc
    rcases hc with hc | hc | hc | hc | hc
    · subst hc; exact (b64Char_props _ (by omega)).2
    · subst hc; exact (b64Char_props _ (by omega)).2
    · subst hc; exact (b64Char_props _ (by omega)).2
    · subst hc; exact (b64Char_props _ (by omega)).2
    · exact b64urlEncode_mem rest (fun b hb => h b (by simp [hb])) c hc
termination_by bs.length

theorem b64Vals_append (l1 l2 : Str) :
    b64Vals (l1 ++ l2) =
      match b64Vals l1, b64Vals l2 with
      | some v1, some v2 => some (v1 ++ v2)
      | _, _ => none := by
  induction l1 with
  | nil =>
    simp only [List.nil_append, b64Vals]
    cases b64Vals l2 <;> rfl
  | cons c cs ih =>
    cases h1 : b64Index c <;> cases h2 : b64Vals cs <;> cases h3 : b64Vals l2 <;>
      simp [List.cons_append, b64Vals, ih, h1, h2, h3]

theorem b64Vals_encode (bs : List Nat) (h : ∀ b ∈ bs, b < 256) :
    ∃ vs, b64Vals (b64urlEncode bs) = some vs ∧ b64Bytes vs = some bs := by
  match bs with
  | [] => exact ⟨[], rfl, rfl⟩
  | [b1] =>
    have hb1 : b1 < 256 := h b1 (by simp)
    refine ⟨[b1 / 4, b1 % 4 * 16], ?_, ?_⟩
    · rw [b64urlEncode]
      simp only [b64Vals, (b64Char_props (b1 / 4) (by omega)).1,
        (b64Char_props (b1 % 4 * 16) (by omega)).1]
    · rw [b64Bytes]
      have e1 : b1 / 4 * 4 + b1 % 4 * 16 / 16 = b1 := by omega
      rw [e1]
  | [b1, b2] =>
    have hb1 : b1 < 256 := h b1 (by simp)
    have hb2 : b2 < 256 := h b2 (by simp)
    refine ⟨[b1 / 4, b1 % 4 * 16 + b2 / 16, b2 % 16 * 4], ?_, ?_⟩
    · rw [b64urlEncode]
      simp only [b64Vals, (b64Char_props (b1 / 4) (by omega)).1,
        (b64Char_props (b1 % 4 * 16 + b2 / 16) (by omega)).1,
        (b64Char_props (b2 % 16 * 4) (by omega)).1]
    · rw [b64Bytes]
      have e1 : b1 / 4 * 4 + (b1 % 4 * 16 + b2 / 16) / 16 = b1 := by omega
      have e2 : (b1 % 4 * 16 + b2 / 16) % 16 * 16 + b2 % 16 * 4 / 4 = b2 := by omega
      rw [e1, e2]
  | b1 :: b2 :: b3 :: rest =>
    have hb1 : b1 < 256 := h b1 (by simp)
    have hb2 : b2 < 256 := h b2 (by simp)
    have hb3 : b3 < 256 := h b3 (by simp)
    obtain ⟨vs, hvs, hbytes⟩ := b64Vals_encode rest (fun b hb => h b (by simp [hb]))
    refine ⟨b1 / 4 :: (b1 % 4 * 16 + b2 / 16) :: (b2 % 16 * 4 + b3 / 64) :: (b3 % 64) :: vs,
      ?_, ?_⟩
    · rw [b64urlEncode]
      show b64Vals (b64Char (b1 / 4) :: b64Char (b1 % 4 * 16 + b2 / 16) ::
        b64Char (b2 % 16 * 4 + b3 / 64) :: b64Char (b3 % 64) :: b64urlEncode rest) = _
      simp only [b64Vals, (b64Char_props (b1 / 4) (by omega)).1,
        (b64Char_props (b1 % 4 * 16 + b2 / 16) (by omega)).1,
        (b64Char_props (b2 % 16 * 4 + b3 / 64) (by omega)).1,
        (b64Char_props (b3 % 64) (by omega)).1, hvs]
    · rw [b64Bytes, hbytes]
      have e1 : b1 / 4 * 4 + (b1 % 4 * 16 + b2 / 16) / 16 = b1 := by omega
      have e2 : (b1 % 4 * 16 + b2 / 16) % 16 * 16 + (b2 % 16 * 4 + b3 / 64) / 4 = b2 := by omega
      have e3 : (b2 % 16 * 4 + b3 / 64) % 4 * 64 + b3 % 64 = b3 := by omega
      rw [e1, e2, e3]
termination_by bs.length

theorem b64urlDecode_encode (bs : List Nat) (h : ∀ b ∈ bs, b < 256) :
    b64urlDecode (b64urlEncode bs) = some bs := by
  obtain ⟨vs, hvs, hbytes⟩ := b64Vals_encode bs h
  rw [b64urlDecode, stripPadding_of_no_eq _ (fun c hc => (b64urlEncode_mem bs h c hc).1), hvs]
  exact hbytes

/-! ### Splitting and the signing-input substring -/

theorem splitOnDot_ne_nil (s : Str) : splitOnDot s ≠ [] := by
  cases s with
  | nil => simp [splitOnDot]
  | cons c cs =>
    rw [splitOnDot]
    cases h : splitOnDot cs with
    | nil => simp
    | cons s1 ss =>
      by_cases hc : c = '.' <;> simp [hc]

theorem splitOnDot_no_dot (a : Str) (h : '.' ∉ a) : splitOnDot a = [a] := by
  induction a with
  | nil => rfl
  | cons c cs ih =>
    have hc : c ≠ '.' := by intro hc; exact h (by simp [hc])
    have ih1 := ih (by intro hm; exact h (by simp [hm]))
    rw [splitOnDot, ih1]
    simp [hc]

theorem splitOnDot_append (a b : Str) (h : '.' ∉ a) :
    splitOnDot (a ++ '.' :: b) = a :: splitOnDot b := by
  induction a with
  | nil =>
    rw [List.nil_append, splitOnDot]
    cases hb : splitOnDot b with
    | nil => exact absurd hb (splitOnDot_ne_nil b)
    | cons s1 ss => simp
  | cons c cs ih =>
    have hc : c ≠ '.' := by intro hc; exact h (by simp [hc])
    have ih1 := ih (by intro hm; exact h (by simp [hm]))
    rw [List.cons_append, splitOnDot, ih1]
    simp [hc]

theorem dropWhile_append_all (p : Char → Bool) (l1 l2 : Str) (h : ∀ x ∈ l1, p x = true) :
    (l1 ++ l2).dropWhile p = l2.dropWhile p := by
  induction l1 with
  | nil => rfl
  | cons c cs ih =>
    rw [List.cons_append, List.dropWhile_cons, h c (by simp)]
    exact ih (fun x hx => h x (by simp [hx]))

theorem beforeLastDot_append (si sig : Str) (h : '.' ∉ sig) :
    beforeLastDot (si ++ '.' :: sig) = si := by
  rw [beforeLastDot, if_pos (by simp)]
  rw [List.reverse_append, List.reverse_cons, List.append_assoc, List.singleton_append]
  rw [dropWhile_append_all _ (sig.reverse) _
    (fun x hx => by
      simp only [List.mem_reverse] at hx
      simp only [decide_eq_true_eq]
      intro hx1
      exact h (hx1 ▸ hx))]
  rw [List.dropWhile_cons, if_neg (by simp)]
  rw [List.tail_cons, List.reverse_reverse]

/-! ### Decimal digits -/

theorem digitsValAux_append (l1 l2 : Str) (acc : Nat) :
    digitsValAux (l1 ++ l2) acc = digitsValAux l2 (digitsValAux l1 acc) := by
  induction l1 generalizing acc with
  | nil => rfl
  | cons c cs ih => rw [List.cons_append, digitsValAux, digitsValAux, ih]

theorem digitChar_spec : ∀ d, d < 10 →
    digitVal (digitChar d) = d ∧ isDigitChar (digitChar d) = true ∧
      (1 ≤ d → digitChar d ≠ '0') := by decide

theorem natDigitsAux_spec (fuel n : Nat) (h : n < fuel) :
    (∀ acc, digitsValAux (natDigitsAux fuel n) acc =
      acc * 10 ^ (natDigitsAux fuel n).length + n) ∧
    natDigitsAux fuel n ≠ [] ∧
    (∀ c ∈ natDigitsAux fuel n, isDigitChar c = true) ∧
    (1 ≤ n → ∀ c, (natDigitsAux fuel n).head? = some c → c ≠ '0') := by
  induction fuel generalizing n with
  | zero => omega
  | succ fuel ih =>
    rw [natDigitsAux]
    by_cases hn : n < 10
    · rw [if_pos hn]
      refine ⟨?_, by simp, ?_, ?_⟩
      · intro acc
        rw [digitsValAux, digitsValAux, (digitChar_spec n hn).1]
        simp
      · intro c hc
        simp only [List.mem_singleton] at hc
        rw [hc]
        exact (digitChar_spec n hn).2.1
      · intro h1 c hc
        simp only [List.head?_cons, Option.some.injEq] at hc
        rw [← hc]
        exact (digitChar_spec n hn).2.2 h1
    · rw [if_neg hn]
      have hdiv : n / 10 < fuel := by omega
      obtain ⟨ihval, ihne, ihdig, ihhd⟩ := ih (n / 10) hdiv
      refine ⟨?_, by simp [ihne], ?_, ?_⟩
      · intro acc
        rw [digitsValAux_append, digitsValAux, digitsValAux, ihval acc]
        rw [List.length_append, List.length_singleton]
        rw [(digitChar_spec (n % 10) (by omega)).1]
        rw [pow_succ]
        have h10 := Nat.div_add_mod n 10
        ring_nf
        omega
      · intro c hc
        rcases List.mem_append.mp hc with h1 | h1
        · exact ihdig c h1
        · simp only [List.mem_singleton] at h1
          rw [h1]
          exact (digitChar_spec (n % 10) (by omega)).2.1
      · intro h1 c hc
        have hne := ihne
        cases hd : natDigitsAux fuel (n / 10) with
        | nil => exact absurd hd hne
        | cons c1 cs1 =>
          rw [hd, List.cons_append, List.head?_cons, Option.some.injEq] at hc
          rw [← hc]
          exact ihhd (by omega) c1 (by rw [hd]; rfl)

theorem natDigits_spec (n : Nat) :
    (digitsValAux (natDigits n) 0 = n) ∧ natDigits n ≠ [] ∧
      (∀ c ∈ natDigits n, isDigitChar c = true) ∧
      (1 ≤ n → ∀ c, (natDigits n).head? = some c → c ≠ '0') := by
  obtain ⟨hval, hne, hdig, hhd⟩ := natDigitsAux_spec (n + 1) n (by omega)
  exact ⟨by rw [natDigits, hval 0]; simp, hne, hdig, hhd⟩

theorem takeDigits_exact (ds rest : Str) (hds : ∀ c ∈ ds, isDigitChar c = true)
    (hr : restOk rest) : takeDigits (ds ++ rest) = (ds, rest) := by
  induction ds with
  | nil =>
    rw [List.nil_append]
    cases rest with
    | nil => rfl
    | cons c r =>
      rw [takeDigits, if_neg (by simp [hr c rfl])]
  | cons c cs ih =>
    rw [List.cons_append, takeDigits, if_pos (hds c (by simp)),
      ih (fun x hx => hds x (by simp [hx]))]

theorem isDigitChar_val (c : Char) (h : isDigitChar c = true) :
    48 ≤ c.toNat ∧ c.toNat ≤ 57 := by
  simp only [isDigitChar, Bool.and_eq_true, decide_eq_true_eq] at h
  obtain ⟨h1, h2⟩ := h
  exact ⟨h1, h2⟩

theorem parseNat_digits (n : Nat) (rest : Str) (hr : restOk rest) :
    parseNat (natDigits n ++ rest) = some (n, rest) := by
  obtain ⟨hval, hne, hdig, hhd⟩ := natDigits_spec n
  by_cases h0 : n = 0
  · subst h0
    rw [show natDigits 0 = ['0'] from rfl, List.cons_append, List.nil_append, parseNat,
      if_pos rfl]
  · cases hd : natDigits n with
    | nil => exact absurd hd hne
    | cons c cs =>
      have hcd : isDigitChar c = true := hdig c (by rw [hd]; simp)
      have hc0 : c ≠ '0' := hhd (by omega) c (by rw [hd]; rfl)
      rw [List.cons_append, parseNat, if_neg hc0, if_pos hcd,
        takeDigits_exact cs rest (fun x hx => hdig x (by rw [hd]; simp [hx])) hr]
      show some (digitsValAux (c :: cs) 0, rest) = some (n, rest)
      rw [show digitsValAux (c :: cs) 0 = n from hd ▸ hval]

theorem parseNumberFrom_int (n : Int) (rest : Str) (hr : restOk rest) :
    parseNumberFrom (intToStr n ++ rest) = some (.num n, rest) := by
  rw [intToStr]
  by_cases hn : n < 0
  · rw [if_pos hn, List.cons_append, parseNumberFrom, if_pos rfl,
      parseNat_digits n.natAbs rest hr]
    show some (Json.num (-(n.natAbs : Int)), rest) = some (Json.num n, rest)
    rw [show (-(n.natAbs : Int)) = n by omega]
  · rw [if_neg hn]
    obtain ⟨hval, hne, hdig, hhd⟩ := natDigits_spec n.natAbs
    cases hd : natDigits n.natAbs with
    | nil => exact absurd hd hne
    | cons c cs =>
      have hcd : isDigitChar c = true := hdig c (by rw [hd]; simp)
      have hcm : c ≠ '-' := by
        intro hc
        subst hc
        exact absurd (isDigitChar_val _ hcd) (by decide)
      rw [List.cons_append, parseNumberFrom, if_neg hcm, ← List.cons_append, ← hd,
        parseNat_digits n.natAbs rest hr]
      show some (Json.num ((n.natAbs : Int)), rest) = some (Json.num n, rest)
      rw [show ((n.natAbs : Int)) = n by omega]

/-! ### JSON string-literal round trip -/

theorem hexVal_hexDigit : ∀ d, d < 16 → hexVal (hexDigit d) = some d := by decide

theorem consStr_some (c : Char) (s r : Str) (res : Option (Str × Str)) (h : res = some (s, r)) :
    consStr c res = some (c :: s, r) := by
  rw [h, consStr]

theorem parseStringBody_escape (s rest : Str) :
    parseStringBody (escapeStr s ++ '"' :: rest) = some (s, rest) := by
  induction s with
  | nil =>
    rw [escapeStr, List.nil_append, parseStringBody, if_pos rfl]
  | cons c cs ih =>
    rw [escapeStr, List.append_assoc]
    rw [escapeChar]
    by_cases h1 : c = '"'
    · rw [if_pos h1, List.cons_append, List.cons_append, List.nil_append]
      rw [parseStringBody, if_neg (by decide), if_pos rfl]
      rw [parseEscape, if_pos rfl]
      rw [consStr_some _ _ _ _ ih, h1]
    · rw [if_neg h1]
      by_cases h2 : c = '\\'
      · rw [if_pos h2, List.cons_append, List.cons_append, List.nil_append]
        rw [parseStringBody, if_neg (by decide), if_pos rfl]
        rw [parseEscape, if_neg (by decide), if_pos rfl]
        rw [consStr_some _ _ _ _ ih, h2]
      · rw [if_neg h2]
        by_cases h3 : c = Char.ofNat 8
        · rw [if_pos h3, List.cons_append, List.cons_append, List.nil_append]
          rw [parseStringBody, if_neg (by decide), if_pos rfl]
          rw [parseEscape, if_neg (by decide), if_neg (by decide), if_neg (by decide),
            if_pos rfl]
          rw [consStr_some _ _ _ _ ih, h3]
        · rw [if_neg h3]
          by_cases h4 : c = Char.ofNat 9
          · rw [if_pos h4, List.cons_append, List.cons_append, List.nil_append]
            rw [parseStringBody, if_neg (by decide), if_pos rfl]
            rw [parseEscape, if_neg (by decide), if_neg (by decide), if_neg (by decide),
              if_neg (by decide), if_neg (by decide), if_neg (by decide), if_neg (by decide),
              if_pos rfl]
            rw [consStr_some _ _ _ _ ih, h4]
          · rw [if_neg h4]
            by_cases h5 : c = Char.ofNat 10
            · rw [if_pos h5, List.cons_append, List.cons_append, List.nil_append]
              rw [parseStringBody, if_neg (by decide), if_pos rfl]
              rw [parseEscape, if_neg (by decide), if_neg (by decide), if_neg (by decide),
                if_neg (by decide), if_neg (by decide), if_pos rfl]
              rw [consStr_some _ _ _ _ ih, h5]
            · rw [if_neg h5]
              by_cases h6 : c = Char.ofNat 12
              · rw [if_pos h6, List.cons_append, List.cons_append, List.nil_append]
                rw [parseStringBody, if_neg (by decide), if_pos rfl]
                rw [parseEscape, if_neg (by decide), if_neg (by decide), if_neg (by decide),
                  if_neg (by decide), if_pos rfl]
                rw [consStr_some _ _ _ _ ih, h6]
              · rw [if_neg h6]
                by_cases h7 : c = Char.ofNat 13
                · rw [if_pos h7, List.cons_append, List.cons_append, List.nil_append]
                  rw [parseStringBody, if_neg (by decide), if_pos rfl]
                  rw [parseEscape, if_neg (by decide), if_neg (by decide), if_neg (by decide),
                    if_neg (by decide), if_neg (by decide), if_neg (by decide), if_pos rfl]
                  rw [consStr_some _ _ _ _ ih, h7]
                · rw [if_neg h7]
                  by_cases h8 : c.toNat < 0x20
                  · rw [if_pos h8]
                    rw [List.cons_append, List.cons_append, List.cons_append, List.cons_append,
                      List.cons_append, List.cons_append, List.nil_append]
                    rw [parseStringBody, if_neg (by decide), if_pos rfl]
                    rw [parseEscape, if_neg (by decide), if_neg (by decide), if_neg (by decide),
                      if_neg (by decide), if_neg (by decide), if_neg (by decide),
                      if_neg (by decide), if_neg (by decide), if_pos rfl]
                    rw [parseUnicodeEscape]
                    rw [show hexVal '0' = some 0 from rfl,
                      hexVal_hexDigit (c.toNat / 16) (by omega),
                      hexVal_hexDigit (c.toNat % 16) (by omega)]
                    show (if 0xD800 ≤ ((0 * 16 + 0) * 16 + c.toNat / 16) * 16 + c.toNat % 16 ∧
                        ((0 * 16 + 0) * 16 + c.toNat / 16) * 16 + c.toNat % 16 < 0xDC00 then _
                      else _) = _
                    rw [if_neg (by omega), if_neg (by omega)]
                    rw [show ((0 * 16 + 0) * 16 + c.toNat / 16) * 16 + c.toNat % 16 = c.toNat by
                      omega]
                    rw [Char.ofNat_toNat]
                    exact consStr_some _ _ _ _ ih
                  · rw [if_neg h8, List.cons_append, List.nil_append]
                    rw [parseStringBody, if_neg h1, if_neg h2, if_neg h8]
                    exact consStr_some _ _ _ _ ih

/-! ### Parser dispatch helpers -/

theorem skipWs_cons (c : Char) (l : Str) (h : isWsChar c = false) : skipWs (c :: l) = c :: l := by
  simp [skipWs, List.dropWhile_cons, h]

theorem isDigitChar_facts (c : Char) (h : isDigitChar c = true) :
    isWsChar c = false ∧ c ≠ 'n' ∧ c ≠ 't' ∧ c ≠ 'f' ∧ c ≠ '"' ∧ c ≠ ']' := by
  have hb := isDigitChar_val c h
  refine ⟨?_, ?_, ?_, ?_, ?_, ?_⟩
  · cases hw : isWsChar c with
    | false => rfl
    | true =>
      exfalso
      simp only [isWsChar, Bool.or_eq_true, decide_eq_true_eq] at hw
      rcases hw with ((h1 | h1) | h1) | h1 <;> (subst h1; exact absurd hb (by decide))
  · intro hc; subst hc; exact absurd hb (by decide)
  · intro hc; subst hc; exact absurd hb (by decide)
  · intro hc; subst hc; exact absurd hb (by decide)
  · intro hc; subst hc; exact absurd hb (by decide)
  · intro hc; subst hc; exact absurd hb (by decide)

theorem json_sizeOf_pos (v : Json) : 1 ≤ sizeOf v := by
  cases v <;> simp <;> omega

theorem jsonList_sizeOf_pos (es : JsonList) : 1 ≤ sizeOf es := by
  cases es <;> simp <;> omega

theorem jsonFields_sizeOf_pos (fs : JsonFields) : 1 ≤ sizeOf fs := by
  cases fs <;> simp <;> omega

theorem cost_pos (v : Json) : 1 ≤ cost v := by
  cases v <;> simp [cost] <;> omega

theorem stringifyHead (v : Json) :
    ∃ c t, stringify v = c :: t ∧ isWsChar c = false ∧ c ≠ ']' := by
  cases v with
  | null => exact ⟨'n', _, rfl, by decide, by decide⟩
  | bool b => cases b with
    | true => exact ⟨'t', _, rfl, by decide, by decide⟩
    | false => exact ⟨'f', _, rfl, by decide, by decide⟩
  | num n =>
    rw [stringify, intToStr]
    by_cases hn : n < 0
    · rw [if_pos hn]
      exact ⟨'-', _, rfl, by decide, by decide⟩
    · rw [if_neg hn]
      obtain ⟨_, hne, hdig, _⟩ := natDigits_spec n.natAbs
      cases hd : natDigits n.natAbs with
      | nil => exact absurd hd hne
      | cons c cs =>
        have hf := isDigitChar_facts c (hdig c (by rw [hd]; simp))
        exact ⟨c, cs, rfl, hf.1, hf.2.2.2.2.2⟩
  | str s => exact ⟨'"', _, rfl, by decide, by decide⟩
  | arr es =>
    cases es with
    | nil => exact ⟨'[', _, rfl, by decide, by decide⟩
    | cons e es1 => exact ⟨'[', _, rfl, by decide, by decide⟩
  | obj fs =>
    cases fs with
    | nil => exact ⟨'\x7b', _, rfl, by decide, by decide⟩
    | cons k v1 fs1 => exact ⟨'\x7b', _, rfl, by decide, by decide⟩

theorem stringifyElems_restOk (es : JsonList) (rest : Str) :
    restOk (stringifyElems es ++ rest) := by
  cases es with
  | nil =>
    intro c hc
    simp only [stringifyElems, List.cons_append, List.head?_cons, Option.some.injEq] at hc
    subst hc; decide
  | cons e es1 =>
    intro c hc
    simp only [stringifyElems, List.cons_append, List.head?_cons, Option.some.injEq] at hc
    subst hc; decide

theorem stringifyFields_restOk (fs : JsonFields) (rest : Str) :
    restOk (stringifyFields fs ++ rest) := by
  cases fs with
  | nil =>
    intro c hc
    simp only [stringifyFields, List.cons_append, List.head?_cons, Option.some.injEq] at hc
    subst hc; decide
  | cons k v fs1 =>
    intro c hc
    simp only [stringifyFields, List.cons_append, List.head?_cons, Option.some.injEq] at hc
    subst hc; decide

theorem restOk_nil : restOk [] := by
  intro c hc
  simp at hc

/-! ### The parser inverts the serializer -/

mutual
theorem parseVal_rt (fuel : Nat) (v : Json) (rest : Str) (hf : cost v ≤ fuel)
    (hr : restOk rest) : parseVal fuel (stringify v ++ rest) = some (v, rest) := by
  match fuel, v with
  | 0, v => exact absurd hf (by have := cost_pos v; omega)
  | fuel + 1, .null =>
    show parseVal (fuel + 1) ('n' :: 'u' :: 'l' :: 'l' :: rest) = _
    rw [parseVal, skipWs_cons _ _ (by decide)]
    exact rfl
  | fuel + 1, .bool true =>
    show parseVal (fuel + 1) ('t' :: 'r' :: 'u' :: 'e' :: rest) = _
    rw [parseVal, skipWs_cons _ _ (by decide)]
    exact rfl
  | fuel + 1, .bool false =>
    show parseVal (fuel + 1) ('f' :: 'a' :: 'l' :: 's' :: 'e' :: rest) = _
    rw [parseVal, skipWs_cons _ _ (by decide)]
    exact rfl
  | fuel + 1, .num n =>
    rw [show stringify (Json.num n) = intToStr n from rfl, parseVal]
    by_cases hn : n < 0
    · have hsh : intToStr n = '-' :: natDigits n.natAbs := by rw [intToStr, if_pos hn]
      rw [hsh, List.cons_append, skipWs_cons _ _ (by decide)]
      show parseNumberFrom ('-' :: (natDigits n.natAbs ++ rest)) = _
      rw [← List.cons_append, ← hsh]
      exact parseNumberFrom_int n rest hr
    · have hsh : intToStr n = natDigits n.natAbs := by rw [intToStr, if_neg hn]
      obtain ⟨_, hne, hdig, _⟩ := natDigits_spec n.natAbs
      cases hd : natDigits n.natAbs with
      | nil => exact absurd hd hne
      | cons c cs =>
        have hcd : isDigitChar c = true := hdig c (by rw [hd]; simp)
        have hfacts := isDigitChar_facts c hcd
        rw [hsh, hd, List.cons_append, skipWs_cons _ _ hfacts.1]
        dsimp only
        rw [if_neg hfacts.2.1, if_neg hfacts.2.2.1, if_neg hfacts.2.2.2.1,
          if_neg hfacts.2.2.2.2.1, if_pos (by rw [hcd]; simp)]
        rw [← List.cons_append, ← hd, ← hsh]
        exact parseNumberFrom_int n rest hr
  | fuel + 1, .str s =>
    show parseVal (fuel + 1) ('"' :: ((escapeStr s ++ ['"']) ++ rest)) = _
    rw [List.append_assoc, List.singleton_append, parseVal, skipWs_cons _ _ (by decide)]
    dsimp only
    rw [if_neg (by decide), if_neg (by decide), if_neg (by decide), if_pos rfl,
      parseStringBody_escape]
  | fuel + 1, .arr .nil =>
    show parseVal (fuel + 1) ('[' :: (']' :: rest)) = _
    rw [parseVal, skipWs_cons _ _ (by decide)]
    dsimp only
    rw [if_neg (by decide), if_neg (by decide), if_neg (by decide), if_neg (by decide),
      if_neg (by decide), if_pos rfl, skipWs_cons _ _ (by decide)]
    exact rfl
  | fuel + 1, .arr (.cons e es) =>
    obtain ⟨c, t, hst, hws, hne⟩ := stringifyHead e
    show parseVal (fuel + 1) ('[' :: ((stringify e ++ stringifyElems es) ++ rest)) = _
    rw [List.append_assoc, parseVal, skipWs_cons _ _ (by decide)]
    dsimp only
    rw [if_neg (by decide), if_neg (by decide), if_neg (by decide), if_neg (by decide),
      if_neg (by decide), if_pos rfl]
    rw [hst, List.cons_append, skipWs_cons _ _ hws]
    split
    · next r1 heq =>
      exact absurd (List.head_eq_of_cons_eq heq) hne
    · next r2 hne2 =>
      rw [← List.cons_append, ← hst,
        parseElems_rt fuel e es rest (by simp only [cost] at hf; omega) hr]
  | fuel + 1, .obj .nil =>
    show parseVal (fuel + 1) ('\x7b' :: ('\x7d' :: rest)) = _
    rw [parseVal, skipWs_cons _ _ (by decide)]
    dsimp only
    rw [if_neg (by decide), if_neg (by decide), if_neg (by decide), if_neg (by decide),
      if_neg (by decide), if_neg (by decide), if_pos rfl, skipWs_cons _ _ (by decide)]
    exact rfl
  | fuel + 1, .obj (.cons k v1 fs) =>
    have hshape : stringify (Json.obj (.cons k v1 fs)) ++ rest =
        '\x7b' :: ('"' :: (escapeStr k ++
          ('"' :: ':' :: (stringify v1 ++ (stringifyFields fs ++ rest))))) := by
      show ('\x7b' :: (('"' :: (escapeStr k ++ ('"' :: ':' :: stringify v1))) ++
        stringifyFields fs)) ++ rest = _
      simp [List.append_assoc]
    rw [hshape, parseVal, skipWs_cons _ _ (by decide)]
    dsimp only
    rw [if_neg (by decide), if_neg (by decide), if_neg (by decide), if_neg (by decide),
      if_neg (by decide), if_neg (by decide), if_pos rfl, skipWs_cons _ _ (by decide)]
    split
    · next r1 heq =>
      exact absurd (List.head_eq_of_cons_eq heq) (by decide)
    · next r2 hne2 =>
      rw [parseFields_rt fuel k v1 fs rest (by simp only [cost] at hf; omega) hr]
termination_by sizeOf v
decreasing_by
  all_goals simp
  all_goals omega

theorem parseElems_rt (fuel : Nat) (e : Json) (es : JsonList) (rest : Str)
    (hf : costElems (.cons e es) ≤ fuel) (hr : restOk rest) :
    parseElems fuel (stringify e ++ (stringifyElems es ++ rest)) = some (.cons e es, rest) := by
  match fuel, es with
  | 0, es =>
    exact absurd hf (by simp only [costElems]; have := cost_pos e; omega)
  | fuel + 1, .nil =>
    rw [parseElems,
      parseVal_rt fuel e (stringifyElems JsonList.nil ++ rest)
        (by simp only [costElems] at hf; omega) (stringifyElems_restOk JsonList.nil rest)]
    rw [show stringifyElems JsonList.nil ++ rest = ']' :: rest from rfl]
    show (match skipWs (']' :: rest) with
      | ']' :: r1 => some (JsonList.cons e JsonList.nil, r1)
      | ',' :: r1 =>
        (match parseElems fuel r1 with
         | some (vs, r2) => some (JsonList.cons e vs, r2)
         | none => none)
      | _ => none) = some (JsonList.cons e JsonList.nil, rest)
    rw [skipWs_cons _ _ (by decide)]
    exact rfl
  | fuel + 1, .cons e2 es2 =>
    rw [parseElems,
      parseVal_rt fuel e (stringifyElems (JsonList.cons e2 es2) ++ rest)
        (by simp only [costElems] at hf; omega)
        (stringifyElems_restOk (JsonList.cons e2 es2) rest)]
    rw [show stringifyElems (JsonList.cons e2 es2) ++ rest =
      ',' :: ((stringify e2 ++ stringifyElems es2) ++ rest) from rfl]
    show (match skipWs (',' :: ((stringify e2 ++ stringifyElems es2) ++ rest)) with
      | ']' :: r1 => some (JsonList.cons e JsonList.nil, r1)
      | ',' :: r1 =>
        (match parseElems fuel r1 with
         | some (vs, r2) => some (JsonList.cons e vs, r2)
         | none => none)
      | _ => none) = some (JsonList.cons e (JsonList.cons e2 es2), rest)
    rw [skipWs_cons _ _ (by decide)]
    show (match parseElems fuel ((stringify e2 ++ stringifyElems es2) ++ rest) with
      | some (vs, r2) => some (JsonList.cons e vs, r2)
      | none => none) = some (JsonList.cons e (JsonList.cons e2 es2), rest)
    rw [List.append_assoc,
      parseElems_rt fuel e2 es2 rest (by simp only [costElems] at hf ⊢; omega) hr]
termination_by 1 + sizeOf e + sizeOf es
decreasing_by
  all_goals simp
  all_goals omega

theorem parseFields_rt (fuel : Nat) (k : Str) (v : Json) (fs : JsonFields) (rest : Str)
    (hf : costFields (.cons k v fs) ≤ fuel) (hr : restOk rest) :
    parseFields fuel
      ('"' :: (escapeStr k ++ ('"' :: ':' :: (stringify v ++ (stringifyFields fs ++ rest))))) =
      some (.cons k v fs, rest) := by
  match fuel, fs with
  | 0, fs =>
    exact absurd hf (by simp only [costFields]; have := cost_pos v; omega)
  | fuel + 1, .nil =>
    rw [parseFields, skipWs_cons _ _ (by decide)]
    split
    case _ r heq =>
      injection heq with h1 h2
      subst h2
      rw [parseStringBody_escape k
        (':' :: (stringify v ++ (stringifyFields JsonFields.nil ++ rest)))]
      split
      case _ k1 r1 heq2 =>
        injection heq2 with h3
        injection h3 with h4 h5
        subst h4
        subst h5
        rw [skipWs_cons _ _ (by decide)]
        split
        case _ r2 heq3 =>
          injection heq3 with h6 h7
          subst h7
          rw [parseVal_rt fuel v (stringifyFields JsonFields.nil ++ rest)
            (by simp only [costFields] at hf; omega) (stringifyFields_restOk JsonFields.nil rest)]
          split
          case _ v1 r3 heq4 =>
            injection heq4 with h8
            injection h8 with h9 h10
            subst h9
            subst h10
            rw [show stringifyFields JsonFields.nil ++ rest = '\x7d' :: rest from rfl,
              skipWs_cons _ _ (by decide)]
            exact rfl
          case _ heq4 => simp at heq4
        case _ heq3 =>
          exact absurd rfl (heq3 (stringify v ++ (stringifyFields JsonFields.nil ++ rest)))
      case _ heq2 => simp at heq2
    case _ heq =>
      exact absurd rfl
        (heq (escapeStr k ++ ('"' :: ':' :: (stringify v ++ (stringifyFields JsonFields.nil ++ rest)))))
  | fuel + 1, .cons k2 v2 fs2 =>
    rw [parseFields, skipWs_cons _ _ (by decide)]
    split
    case _ r heq =>
      injection heq with h1 h2
      subst h2
      rw [parseStringBody_escape k
        (':' :: (stringify v ++ (stringifyFields (JsonFields.cons k2 v2 fs2) ++ rest)))]
      split
      case _ k1 r1 heq2 =>
        injection heq2 with h3
        injection h3 with h4 h5
        subst h4
        subst h5
        rw [skipWs_cons _ _ (by decide)]
        split
        case _ r2 heq3 =>
          injection heq3 with h6 h7
          subst h7
          rw [parseVal_rt fuel v (stringifyFields (JsonFields.cons k2 v2 fs2) ++ rest)
            (by simp only [costFields] at hf; omega)
            (stringifyFields_restOk (JsonFields.cons k2 v2 fs2) rest)]
          split
          case _ v1 r3 heq4 =>
            injection heq4 with h8
            injection h8 with h9 h10
            subst h9
            subst h10
            rw [show stringifyFields (JsonFields.cons k2 v2 fs2) ++ rest =
              ',' :: (('"' :: (escapeStr k2 ++ ('"' :: ':' :: stringify v2)) ++
                stringifyFields fs2) ++ rest) from rfl,
              skipWs_cons _ _ (by decide)]
            split
            case _ r4 heq5 =>
              injection heq5 with h11 h12
              exact absurd h11 (by decide)
            case _ r4 heq5 =>
              injection heq5 with h11 h12
              subst h12
              have hshape2 : ('"' :: (escapeStr k2 ++ ('"' :: ':' :: stringify v2)) ++
                  stringifyFields fs2) ++ rest =
                  '"' :: (escapeStr k2 ++
                    ('"' :: ':' :: (stringify v2 ++ (stringifyFields fs2 ++ rest)))) := by
                simp [List.append_assoc]
              rw [hshape2,
                parseFields_rt fuel k2 v2 fs2 rest
                  (by simp only [costFields] at hf ⊢; omega) hr]
            case _ heq5 heq6 =>
              exact absurd rfl
                (heq6 (('"' :: (escapeStr k2 ++ ('"' :: ':' :: stringify v2)) ++
                  stringifyFields fs2) ++ rest))
          case _ heq4 => simp at heq4
        case _ heq3 =>
          exact absurd rfl
            (heq3 (stringify v ++ (stringifyFields (JsonFields.cons k2 v2 fs2) ++ rest)))
      case _ heq2 => simp at heq2
    case _ heq =>
      exact absurd rfl
        (heq (escapeStr k ++
          ('"' :: ':' :: (stringify v ++ (stringifyFields (JsonFields.cons k2 v2 fs2) ++ rest)))))
termination_by 1 + sizeOf v + sizeOf fs
decreasing_by
  all_goals simp
  all_goals omega
end
theorem natDigits_ne_nil (n : Nat) : (natDigits n).length ≥ 1 := by
  rw [natDigits, natDigitsAux]
  split
  · simp
  · simp

theorem intToStr_ne_nil (n : Int) : (intToStr n).length ≥ 1 := by
  rw [intToStr]
  split
  · simp
  · exact natDigits_ne_nil n.natAbs

mutual
theorem cost_le_length (v : Json) : cost v ≤ (stringify v).length := by
  match v with
  | .null => exact le_of_eq rfl |>.trans (by rw [stringify]; simp [cost])
  | .bool true => rw [stringify, cost]; simp
  | .bool false => rw [stringify, cost]; simp
  | .num n => rw [stringify, cost]; exact intToStr_ne_nil n
  | .str s => rw [stringify, cost]; simp
  | .arr es =>
    rw [stringify.eq_def]
    match es with
    | .nil => rw [cost, costElems]; simp
    | .cons e es1 =>
      have h1 := cost_le_length e
      have h2 := costElems_le_length es1
      simp only [cost, costElems, List.length_cons, List.length_append]
      omega
  | .obj fs =>
    rw [stringify.eq_def]
    match fs with
    | .nil => rw [cost, costFields]; simp
    | .cons k v1 fs1 =>
      have h1 := cost_le_length v1
      have h2 := costFields_le_length fs1
      simp only [cost, costFields, List.length_cons, List.length_append]
      omega
termination_by sizeOf v
decreasing_by
  all_goals simp
  all_goals omega

theorem costElems_le_length (es : JsonList) : costElems es + 1 ≤ (stringifyElems es).length := by
  match es with
  | .nil => rw [costElems, stringifyElems]; simp
  | .cons e es1 =>
    have h1 := cost_le_length e
    have h2 := costElems_le_length es1
    rw [costElems, stringifyElems]
    simp only [List.length_cons, List.length_append]
    omega
termination_by sizeOf es
decreasing_by
  all_goals simp
  all_goals omega

theorem costFields_le_length (fs : JsonFields) : costFields fs + 1 ≤ (stringifyFields fs).length := by
  match fs with
  | .nil => rw [costFields, stringifyFields]; simp
  | .cons k v fs1 =>
    have h1 := cost_le_length v
    have h2 := costFields_le_length fs1
    rw [costFields, stringifyFields]
    simp only [List.length_cons, List.length_append]
    omega
termination_by sizeOf fs
decreasing_by
  all_goals simp
  all_goals omega
end

theorem jsonParse_stringify (v : Json) : jsonParse (stringify v) = some v := by
  rw [jsonParse]
  have h := parseVal_rt ((stringify v).length + 1) v []
    (le_trans (cost_le_length v) (by omega)) restOk_nil
  rw [List.append_nil] at h
  rw [h]
  exact rfl
/-! ### mod.ts-level lemmas -/

theorem getAlgorithm_none : Algo.getAlgorithm none = .error (.error (notSupportedMsg none)) := rfl

theorem algoVerify_alg_isSome (alg : Option Str) (key : JsKey)
    (h : Algo.verify alg key = .ok true) : alg ≠ none := by
  intro halg
  subst halg
  cases key <;> simp [Algo.verify.eq_def, getAlgorithm_none] at h

theorem algoVerify_bytes (alg : Option Str) (b : List Nat) :
    Algo.verify alg (.bytes b) ≠ .ok true := by
  intro h
  rw [Algo.verify.eq_def] at h
  by_cases hn : alg = some ("none").toList
  · rw [if_pos hn] at h
    simp at h
  · rw [if_neg hn] at h
    dsimp only at h
    cases hga : Algo.getAlgorithm alg <;> rw [hga] at h <;> simp at h

theorem algoVerify_cryptoKey_getAlg (alg : Option Str) (k : CryptoKey)
    (h : Algo.verify alg (.cryptoKey k) = .ok true) :
    ∃ a, Algo.getAlgorithm alg = .ok a := by
  rw [Algo.verify.eq_def] at h
  by_cases hn : alg = some ("none").toList
  · rw [if_pos hn] at h
    simp at h
  · rw [if_neg hn] at h
    dsimp only at h
    cases hga : Algo.getAlgorithm alg with
    | error e => rw [hga] at h; simp at h
    | ok a => exact ⟨a, rfl⟩

theorem decode_signing (h p : Json) (sig : Str) (sb : List Nat)
    (hdec : b64urlDecode sig = some sb) (hnd : '.' ∉ sig) :
    decode (createSigningInput h p ++ '.' :: sig) = .ok (h, p, sb) := by
  have h1 : '.' ∉ b64urlEncode (utf8Encode (stringify h)) := fun hm =>
    (b64urlEncode_mem _ (utf8Encode_lt_256 _) '.' hm).2 rfl
  have h2 : '.' ∉ b64urlEncode (utf8Encode (stringify p)) := fun hm =>
    (b64urlEncode_mem _ (utf8Encode_lt_256 _) '.' hm).2 rfl
  have hsplit : splitOnDot (createSigningInput h p ++ '.' :: sig) =
      [b64urlEncode (utf8Encode (stringify h)), b64urlEncode (utf8Encode (stringify p)), sig] := by
    rw [createSigningInput, List.append_assoc, List.cons_append]
    rw [splitOnDot_append _ _ h1, splitOnDot_append _ _ h2, splitOnDot_no_dot sig hnd]
  have hb : decodeB64Segs
      [b64urlEncode (utf8Encode (stringify h)), b64urlEncode (utf8Encode (stringify p)), sig] =
      some [utf8Encode (stringify h), utf8Encode (stringify p), sb] := by
    simp only [decodeB64Segs, b64urlDecode_encode _ (utf8Encode_lt_256 (stringify h)),
      b64urlDecode_encode _ (utf8Encode_lt_256 (stringify p)), hdec]
  have hsegs : decodeSegs [utf8Encode (stringify h), utf8Encode (stringify p), sb] 0 =
      some [.json h, .json p, .bytes sb] := by
    simp [decodeSegs, utf8Decode_encode, jsonParse_stringify]
  rw [decode, hsplit, hb]
  dsimp only
  rw [hsegs]

theorem decode_error_msg (jwt : Str) (e : JsError) (h : decode jwt = .error e) :
    e = .error serializationInvalidMsg := by
  rw [decode] at h
  split at h
  · injection h with h1
    exact h1.symm
  · split at h
    · injection h with h1
      exact h1.symm
    · simp at h
    · injection h with h1
      exact h1.symm

theorem jsRoundDiv1000_eq_round (m : Int) : jsRoundDiv1000 m = round ((m : ℚ) / 1000) := by
  rw [jsRoundDiv1000, round_eq, Int.fdiv_eq_ediv _ (by norm_num)]
  have hq : (m : ℚ) / 1000 + 1 / 2 = ((2 * m + 1000 : ℤ) : ℚ) / ((2000 : ℕ) : ℚ) := by
    push_cast
    ring
  rw [hq, Rat.floor_intCast_div_natCast]
  norm_num
theorem sound_toyMac : SoundCrypto toyMac := by
  constructor
  · intro a k d
    show decide (toySign a k d = toySign a k d) = true
    simp
  · intro a k d b hb
    have hb1 : b ∈ toySign a k d := hb
    rw [toySign] at hb1
    simp only [List.mem_cons, List.not_mem_nil, or_false] at hb1
    rcases hb1 with h | h <;> omega

/-! ## The claims -/

/-- C1: round trip.  For every sound crypto provider, header, JSON-object
payload and key such that the header's declared `alg` is compatible with the
key and the payload's `exp`/`nbf` claims, when present, are numeric and
inside the validity window at verification time, `create` mints a token that
`verify` accepts with the same key, returning the payload field-for-field. -/
theorem C1 (mac : SubtleCrypto) (nowMs : Int) (header payload : Json) (key : JsKey)
    (hs : SoundCrypto mac)
    (hcompat : Algo.verify (headerAlgString header) key = .ok true)
    (hobj : isObject payload = true)
    (hclaims : hasInvalidTimingClaims
      [jsGet payload ("exp").toList, jsGet payload ("nbf").toList] = false)
    (hexp : expExpired payload nowMs = false)
    (hnbf : nbfTooEarly payload nowMs = false) :
    ∃ token, create mac header payload key = .ok token ∧
      verify mac nowMs token key = .ok payload := by
  have halg : headerAlgString header ≠ none := algoVerify_alg_isSome _ _ hcompat
  have hval : ∀ sb : List Nat, validate nowMs (header, payload, sb) =
      .ok (header, payload, sb) := by
    intro sb
    rw [validate]
    rw [if_neg halg, if_pos hobj, if_neg (by rw [hclaims]; simp),
      if_neg (by rw [hexp]; simp), if_neg (by rw [hnbf]; simp)]
  cases key with
  | bytes b => exact absurd hcompat (algoVerify_bytes _ b)
  | null =>
    refine ⟨createSigningInput header payload ++ '.' :: [], ?_, ?_⟩
    · rw [create.eq_def, hcompat]
      dsimp only
      rw [Sig.create.eq_def]
    · rw [verify.eq_def, decode_signing header payload [] [] rfl (by simp)]
      dsimp only
      rw [hval []]
      dsimp only
      rw [hcompat]
      dsimp only
      rw [Sig.verify.eq_def]
      exact rfl
  | cryptoKey k =>
    obtain ⟨a, hga⟩ := algoVerify_cryptoKey_getAlg _ k hcompat
    have hlt : ∀ bb ∈ mac.sign a k (utf8Encode (createSigningInput header payload)), bb < 256 :=
      hs.2 a k _
    have hnd : '.' ∉ b64urlEncode (mac.sign a k (utf8Encode (createSigningInput header payload))) :=
      fun hm => (b64urlEncode_mem _ hlt '.' hm).2 rfl
    refine ⟨createSigningInput header payload ++
      '.' :: b64urlEncode (mac.sign a k (utf8Encode (createSigningInput header payload))),
      ?_, ?_⟩
    · rw [create.eq_def, hcompat]
      dsimp only
      rw [Sig.create.eq_def]
      dsimp only
      rw [hga]
    · rw [verify.eq_def,
        decode_signing header payload _ _ (b64urlDecode_encode _ hlt) hnd]
      dsimp only
      rw [hval _]
      dsimp only
      rw [hcompat]
      dsimp only
      rw [beforeLastDot_append _ _ hnd]
      rw [Sig.verify.eq_def]
      dsimp only
      rw [hga]
      dsimp only
      rw [hs.1 a k (utf8Encode (createSigningInput header payload))]

theorem C1_witness :
    (SoundCrypto toyMac ∧
     Algo.verify (headerAlgString (Json.obj (.cons ("alg").toList (.str ("HS256").toList)
         (.cons ("typ").toList (.str ("JWT").toList) .nil)))) (.cryptoKey hs256Key) = .ok true ∧
     isObject (Json.obj (.cons ("iss").toList (.str ("bob").toList)
         (.cons ("exp").toList (.num 9999999999) .nil))) = true ∧
     hasInvalidTimingClaims
       [jsGet (Json.obj (.cons ("iss").toList (.str ("bob").toList)
          (.cons ("exp").toList (.num 9999999999) .nil))) ("exp").toList,
        jsGet (Json.obj (.cons ("iss").toList (.str ("bob").toList)
          (.cons ("exp").toList (.num 9999999999) .nil))) ("nbf").toList] = false ∧
     expExpired (Json.obj (.cons ("iss").toList (.str ("bob").toList)
         (.cons ("exp").toList (.num 9999999999) .nil))) 0 = false ∧
     nbfTooEarly (Json.obj (.cons ("iss").toList (.str ("bob").toList)
         (.cons ("exp").toList (.num 9999999999) .nil))) 0 = false) ∧
    ∃ token,
      create toyMac (Json.obj (.cons ("alg").toList (.str ("HS256").toList)
          (.cons ("typ").toList (.str ("JWT").toList) .nil)))
        (Json.obj (.cons ("iss").toList (.str ("bob").toList)
          (.cons ("exp").toList (.num 9999999999) .nil))) (.cryptoKey hs256Key) = .ok token ∧
      verify toyMac 0 token (.cryptoKey hs256Key) =
        .ok (Json.obj (.cons ("iss").toList (.str ("bob").toList)
          (.cons ("exp").toList (.num 9999999999) .nil))) :=
  ⟨⟨sound_toyMac, rfl, rfl, rfl, rfl, rfl⟩,
   C1 toyMac 0
     (Json.obj (.cons ("alg").toList (.str ("HS256").toList)
       (.cons ("typ").toList (.str ("JWT").toList) .nil)))
     (Json.obj (.cons ("iss").toList (.str ("bob").toList)
       (.cons ("exp").toList (.num 9999999999) .nil)))
     (.cryptoKey hs256Key) sound_toyMac rfl rfl rfl rfl rfl⟩

/-- C2: the declared `alg` is checked against the key before any signature
computation.  Whenever the header's `alg` is not the algorithm the key can
honor (`algorithm.ts`'s compatibility check yields `false`), `verify` fails
with the algorithm-mismatch error for every crypto provider `mac` — in
particular for a provider whose MAC verification accepts every signature —
so the token's self-declared `alg` never selects the algorithm and the
signature is never consulted. -/
theorem C2 (mac : SubtleCrypto) (nowMs : Int) (jwt : Str) (key : JsKey)
    (h p : Json) (s : List Nat)
    (hd : decode jwt = .ok (h, p, s))
    (hv : validate nowMs (h, p, s) = .ok (h, p, s))
    (hm : Algo.verify (headerAlgString h) key = .ok false) :
    verify mac nowMs jwt key = .error (.error (algMismatchMsg (headerAlgString h))) := by
  rw [verify.eq_def, hd]
  dsimp only
  rw [hv]
  dsimp only
  rw [hm]

theorem C2_witness :
    (decode ("eyJhbGciOiJIUzI1NiJ9.e30.AA").toList =
      .ok (Json.obj (.cons ("alg").toList (.str ("HS256").toList) .nil), Json.obj .nil, [0]) ∧
     validate 0 (Json.obj (.cons ("alg").toList (.str ("HS256").toList) .nil),
       Json.obj .nil, [0]) =
       .ok (Json.obj (.cons ("alg").toList (.str ("HS256").toList) .nil), Json.obj .nil, [0]) ∧
     Algo.verify (headerAlgString (Json.obj (.cons ("alg").toList (.str ("HS256").toList) .nil)))
       (.cryptoKey hs384Key) = .ok false) ∧
    verify permissiveMac 0 ("eyJhbGciOiJIUzI1NiJ9.e30.AA").toList (.cryptoKey hs384Key) =
      .error (.error (algMismatchMsg
        (headerAlgString (Json.obj (.cons ("alg").toList (.str ("HS256").toList) .nil))))) :=
  ⟨⟨rfl, rfl, rfl⟩,
   C2 permissiveMac 0 (("eyJhbGciOiJIUzI1NiJ9.e30.AA").toList) (.cryptoKey hs384Key)
     (Json.obj (.cons ("alg").toList (.str ("HS256").toList) .nil)) (Json.obj .nil) [0]
     rfl rfl rfl⟩

/-- C3 (amended): the library rejects `alg` "none" only when a key is
supplied: with any non-null key, `create` refuses to mint and `verify`
refuses to accept an `alg`-"none" token, failing with the none-key error.
(The original claim — that rejection happens by default, i.e. also with a
null key — is refuted by `C3_counterexample`.) -/
theorem C3 (mac : SubtleCrypto) (nowMs : Int) (key : JsKey) (header payload h p : Json)
    (s : List Nat) (jwt : Str)
    (hk : key ≠ .null)
    (hal : headerAlgString header = some ("none").toList)
    (hd : decode jwt = .ok (h, p, s))
    (hv : validate nowMs (h, p, s) = .ok (h, p, s))
    (hal2 : headerAlgString h = some ("none").toList) :
    create mac header payload key = .error (.error noneKeyMsg) ∧
    verify mac nowMs jwt key = .error (.error noneKeyMsg) := by
  have hnone : ∀ alg, alg = some (("none").toList) → Algo.verify alg key =
      .error (.error noneKeyMsg) := by
    intro alg halg
    rw [Algo.verify.eq_def, if_pos halg]
    cases key with
    | null => exact absurd rfl hk
    | cryptoKey k => rfl
    | bytes b => rfl
  refine ⟨?_, ?_⟩
  · rw [create.eq_def, hnone _ hal]
  · rw [verify.eq_def, hd]
    dsimp only
    rw [hv]
    dsimp only
    rw [hnone _ hal2]

theorem C3_witness :
    ((JsKey.cryptoKey hs256Key) ≠ .null ∧
     headerAlgString (Json.obj (.cons ("alg").toList (.str ("none").toList) .nil)) =
       some ("none").toList ∧
     decode ("eyJhbGciOiJub25lIn0.e30.").toList =
       .ok (Json.obj (.cons ("alg").toList (.str ("none").toList) .nil), Json.obj .nil, []) ∧
     validate 0 (Json.obj (.cons ("alg").toList (.str ("none").toList) .nil),
       Json.obj .nil, []) =
       .ok (Json.obj (.cons ("alg").toList (.str ("none").toList) .nil), Json.obj .nil, [])) ∧
    (create toyMac (Json.obj (.cons ("alg").toList (.str ("none").toList) .nil))
       (Json.obj .nil) (.cryptoKey hs256Key) = .error (.error noneKeyMsg) ∧
     verify toyMac 0 ("eyJhbGciOiJub25lIn0.e30.").toList (.cryptoKey hs256Key) =
       .error (.error noneKeyMsg)) :=
  ⟨⟨by decide, rfl, rfl, rfl⟩,
   C3 toyMac 0 (.cryptoKey hs256Key)
     (Json.obj (.cons ("alg").toList (.str ("none").toList) .nil)) (Json.obj .nil)
     (Json.obj (.cons ("alg").toList (.str ("none").toList) .nil)) (Json.obj .nil)
     [] (("eyJhbGciOiJub25lIn0.e30.").toList)
     (by decide) rfl rfl rfl rfl⟩

/-- C3 counterexample to the original claim: with a null key (the declared
compatibility partner of `alg` "none"), `create` does mint an unsigned
`alg`-"none" token and `verify` does accept it — rejection is not the
default. -/
theorem C3_counterexample :
    create toyMac (Json.obj (.cons ("alg").toList (.str ("none").toList) .nil))
        (Json.obj .nil) .null = .ok ("eyJhbGciOiJub25lIn0.e30.").toList ∧
    verify toyMac 0 ("eyJhbGciOiJub25lIn0.e30.").toList .null = .ok (Json.obj .nil) :=
  ⟨rfl, rfl⟩

/-- C4 (amended): with `exp` and `nbf` claims that, when present, are
numeric (either claim may be absent), validation at the default 1-second
leeway fails with the expiry error exactly when `exp` is present and
`now > exp + leeway`; it fails with the not-yet-valid error exactly when
`nbf` is present, `now < nbf - leeway`, and the token is not simultaneously
expired (`exp` is checked first, refuting only the original
exact-characterization for `nbf` — see `C4_counterexample`); otherwise the
payload passes through.  Times are exact integers scaled to milliseconds:
`now > exp + leeway` is `(exp + 1) * 1000 < nowMs`. -/
theorem C4 (header payload : Json) (s : List Nat) (eo no : Option Int) (nowMs : Int)
    (hh : headerAlgString header ≠ none)
    (hobj : isObject payload = true)
    (he : jsGet payload ("exp").toList = Option.map Json.num eo)
    (hn : jsGet payload ("nbf").toList = Option.map Json.num no) :
    validate nowMs (header, payload, s) =
      if expiredAt eo nowMs then .error (.rangeError expiredMsg)
      else if tooEarlyAt no nowMs then .error (.rangeError tooEarlyMsg)
      else .ok (header, payload, s) := by
  have hclaims : hasInvalidTimingClaims
      [jsGet payload ("exp").toList, jsGet payload ("nbf").toList] = false := by
    rw [he, hn]
    cases eo <;> cases no <;> exact rfl
  have hex : expExpired payload nowMs = expiredAt eo nowMs := by
    cases eo with
    | none => rw [expExpired, he]; exact rfl
    | some e => rw [expExpired, he]; exact rfl
  have hnb : nbfTooEarly payload nowMs = tooEarlyAt no nowMs := by
    cases no with
    | none => rw [nbfTooEarly, hn]; exact rfl
    | some n => rw [nbfTooEarly, hn]; exact rfl
  rw [validate]
  rw [if_neg hh, if_pos hobj, if_neg (by rw [hclaims]; simp), hex, hnb]

theorem C4_witness :
    (headerAlgString (Json.obj (.cons ("alg").toList (.str ("HS256").toList) .nil)) ≠ none ∧
     isObject (Json.obj (.cons ("iss").toList (.str ("bob").toList)
       (.cons ("exp").toList (.num 5) .nil))) = true ∧
     jsGet (Json.obj (.cons ("iss").toList (.str ("bob").toList)
       (.cons ("exp").toList (.num 5) .nil))) ("exp").toList =
       Option.map Json.num (some 5) ∧
     jsGet (Json.obj (.cons ("iss").toList (.str ("bob").toList)
       (.cons ("exp").toList (.num 5) .nil))) ("nbf").toList =
       Option.map Json.num none) ∧
    validate 10000 (Json.obj (.cons ("alg").toList (.str ("HS256").toList) .nil),
      Json.obj (.cons ("iss").toList (.str ("bob").toList)
        (.cons ("exp").toList (.num 5) .nil)), []) =
      (if expiredAt (some 5) 10000 then .error (.rangeError expiredMsg)
       else if tooEarlyAt none 10000 then .error (.rangeError tooEarlyMsg)
       else .ok (Json.obj (.cons ("alg").toList (.str ("HS256").toList) .nil),
         Json.obj (.cons ("iss").toList (.str ("bob").toList)
           (.cons ("exp").toList (.num 5) .nil)), [])) :=
  ⟨⟨by decide, rfl, rfl, rfl⟩,
   C4 (Json.obj (.cons ("alg").toList (.str ("HS256").toList) .nil))
     (Json.obj (.cons ("iss").toList (.str ("bob").toList)
       (.cons ("exp").toList (.num 5) .nil)))
     [] (some 5) none 10000 (by decide) rfl rfl rfl⟩

/-- C4 counterexample to the original claim: a token that is both expired
and not yet valid (`now < nbf - leeway` holds) fails with the expiry error,
not the not-yet-valid error — so "fails with TokenNotYetValid exactly when
now < nbf - leeway" does not hold. -/
theorem C4_counterexample :
    nbfTooEarly (Json.obj (.cons ("exp").toList (.num 0)
      (.cons ("nbf").toList (.num 100) .nil))) 10000 = true ∧
    validate 10000 (Json.obj (.cons ("alg").toList (.str ("HS256").toList) .nil),
      Json.obj (.cons ("exp").toList (.num 0) (.cons ("nbf").toList (.num 100) .nil)), []) =
      .error (.rangeError expiredMsg) :=
  ⟨rfl, rfl⟩

/-- C5 (amended): for a decoded token whose header carries a string `alg`
and whose payload is a JSON object, a present-but-non-numeric `exp` or
`nbf` claim makes `verify` fail with the invalid-claims error, for every
key and crypto provider.  (The original unconditional claim is refuted by
`C5_counterexample`: with a non-object header the same payload fails with
the missing-alg error instead.) -/
theorem C5 (mac : SubtleCrypto) (nowMs : Int) (key : JsKey) (jwt : Str)
    (h p : Json) (s : List Nat)
    (hd : decode jwt = .ok (h, p, s))
    (hh : headerAlgString h ≠ none)
    (hobj : isObject p = true)
    (hbad : hasInvalidTimingClaims [jsGet p ("exp").toList, jsGet p ("nbf").toList] = true) :
    verify mac nowMs jwt key = .error (.error invalidClaimsMsg) := by
  rw [verify.eq_def, hd]
  dsimp only
  rw [validate]
  rw [if_neg hh, if_pos hobj, if_pos hbad]

theorem C5_witness :
    (decode ("eyJhbGciOiJIUzI1NiJ9.eyJleHAiOiJ6enoifQ.").toList =
      .ok (Json.obj (.cons ("alg").toList (.str ("HS256").toList) .nil),
        Json.obj (.cons ("exp").toList (.str ("zzz").toList) .nil), []) ∧
     headerAlgString (Json.obj (.cons ("alg").toList (.str ("HS256").toList) .nil)) ≠ none ∧
     isObject (Json.obj (.cons ("exp").toList (.str ("zzz").toList) .nil)) = true ∧
     hasInvalidTimingClaims
       [jsGet (Json.obj (.cons ("exp").toList (.str ("zzz").toList) .nil)) ("exp").toList,
        jsGet (Json.obj (.cons ("exp").toList (.str ("zzz").toList) .nil)) ("nbf").toList] =
       true) ∧
    verify toyMac 0 ("eyJhbGciOiJIUzI1NiJ9.eyJleHAiOiJ6enoifQ.").toList .null =
      .error (.error invalidClaimsMsg) :=
  ⟨⟨rfl, by decide, rfl, rfl⟩,
   C5 toyMac 0 .null (("eyJhbGciOiJIUzI1NiJ9.eyJleHAiOiJ6enoifQ.").toList)
     (Json.obj (.cons ("alg").toList (.str ("HS256").toList) .nil))
     (Json.obj (.cons ("exp").toList (.str ("zzz").toList) .nil)) []
     rfl (by decide) rfl rfl⟩

/-- C5 counterexample to the original claim: a decoded token whose payload
has a non-numeric `exp` claim, but whose header is the JSON number `0` —
verification fails with the missing-alg error (classified MalformedToken),
not the invalid-claims error, so a non-numeric `exp` does not always
surface as InvalidClaims. -/
theorem C5_counterexample :
    decode ("MA.eyJleHAiOiJ6enoifQ.").toList =
      .ok (Json.num 0, Json.obj (.cons ("exp").toList (.str ("zzz").toList) .nil), []) ∧
    hasInvalidTimingClaims
      [jsGet (Json.obj (.cons ("exp").toList (.str ("zzz").toList) .nil)) ("exp").toList,
       jsGet (Json.obj (.cons ("exp").toList (.str ("zzz").toList) .nil)) ("nbf").toList] =
      true ∧
    verify toyMac 0 ("MA.eyJleHAiOiJ6enoifQ.").toList (.cryptoKey hs256Key) =
      .error (.error algParamMsg) ∧
    algParamMsg ≠ invalidClaimsMsg :=
  ⟨rfl, rfl, rfl, by decide⟩

/-- C6: for every input string and key, when decoding fails (wrong segment
count, a segment that is not valid base64url, JSON parse failure) or the
decoded header lacks a string `alg` or the decoded payload is not a JSON
object, `verify` returns an error value — it never throws past its
`try/catch` — and that error classifies as the single MalformedToken
kind. -/
theorem C6 (mac : SubtleCrypto) (nowMs : Int) (key : JsKey) (jwt : Str)
    (hbad : (match decode jwt with
      | .error _ => true
      | .ok (h, p, _) => (headerAlgString h).isNone || !(isObject p)) = true) :
    ∃ e, verify mac nowMs jwt key = .error e ∧ classify e = .malformedToken := by
  cases hdec : decode jwt with
  | error e =>
    refine ⟨e, ?_, ?_⟩
    · rw [verify.eq_def, hdec]
    · rw [decode_error_msg jwt e hdec]
      rfl
  | ok t =>
    obtain ⟨h, p, s⟩ := t
    rw [hdec] at hbad
    dsimp only at hbad
    by_cases halg : headerAlgString h = none
    · refine ⟨.error algParamMsg, ?_, by rfl⟩
      rw [verify.eq_def, hdec]
      dsimp only
      rw [validate]
      rw [if_pos halg]
    · have hpo : isObject p = false := by
        cases hio : isObject p
        · rfl
        · exfalso
          rw [hio] at hbad
          simp only [Bool.not_true, Bool.or_false] at hbad
          exact halg (Option.isNone_iff_eq_none.mp hbad)
      refine ⟨.error claimsSetMsg, ?_, by rfl⟩
      rw [verify.eq_def, hdec]
      dsimp only
      rw [validate]
      rw [if_neg halg, if_neg (by rw [hpo]; simp)]

theorem C6_witness :
    (match decode ("onlyonepart").toList with
      | .error _ => true
      | .ok (h, p, _) => (headerAlgString h).isNone || !(isObject p)) = true ∧
    ∃ e, verify toyMac 0 ("onlyonepart").toList .null = .error e ∧
      classify e = .malformedToken :=
  ⟨rfl, C6 toyMac 0 .null (("onlyonepart").toList) rfl⟩

/-- C7: for a syntactically valid three-segment token, the signature check
is computed over exactly the UTF-8 bytes of the original substring of the
received token preceding its last dot (`beforeLastDot jwt`), never over a
re-serialization of the parsed header and payload: `verify`'s outcome is
exactly the crypto provider's verdict on those bytes. -/
theorem C7 (mac : SubtleCrypto) (nowMs : Int) (jwt : Str) (k : CryptoKey) (h p : Json)
    (s : List Nat) (a : AlgSpec)
    (hd : decode jwt = .ok (h, p, s))
    (hv : validate nowMs (h, p, s) = .ok (h, p, s))
    (ha : Algo.verify (headerAlgString h) (.cryptoKey k) = .ok true)
    (hga : Algo.getAlgorithm (headerAlgString h) = .ok a) :
    verify mac nowMs jwt (.cryptoKey k) =
      if mac.verify a k s (utf8Encode (beforeLastDot jwt)) then .ok p
      else .error (.error sigMismatchMsg) := by
  rw [verify.eq_def, hd]
  dsimp only
  rw [hv]
  dsimp only
  rw [ha]
  dsimp only
  rw [Sig.verify.eq_def]
  dsimp only
  rw [hga]
  dsimp only
  cases hb : mac.verify a k s (utf8Encode (beforeLastDot jwt)) <;> rfl

theorem C7_witness :
    (decode ("eyJhbGciOiJIUzI1NiJ9.e30.AA").toList =
      .ok (Json.obj (.cons ("alg").toList (.str ("HS256").toList) .nil), Json.obj .nil, [0]) ∧
     validate 0 (Json.obj (.cons ("alg").toList (.str ("HS256").toList) .nil),
       Json.obj .nil, [0]) =
       .ok (Json.obj (.cons ("alg").toList (.str ("HS256").toList) .nil), Json.obj .nil, [0]) ∧
     Algo.verify (headerAlgString (Json.obj (.cons ("alg").toList (.str ("HS256").toList) .nil)))
       (.cryptoKey hs256Key) = .ok true ∧
     Algo.getAlgorithm
       (headerAlgString (Json.obj (.cons ("alg").toList (.str ("HS256").toList) .nil))) =
       .ok { name := "HMAC", hashName := some "SHA-256" }) ∧
    verify toyMac 0 ("eyJhbGciOiJIUzI1NiJ9.e30.AA").toList (.cryptoKey hs256Key) =
      if toyMac.verify { name := "HMAC", hashName := some "SHA-256" } hs256Key [0]
        (utf8Encode (beforeLastDot ("eyJhbGciOiJIUzI1NiJ9.e30.AA").toList)) then
        .ok (Json.obj .nil)
      else .error (.error sigMismatchMsg) :=
  ⟨⟨rfl, rfl, rfl, rfl⟩,
   C7 toyMac 0 (("eyJhbGciOiJIUzI1NiJ9.e30.AA").toList) hs256Key
     (Json.obj (.cons ("alg").toList (.str ("HS256").toList) .nil)) (Json.obj .nil) [0]
     { name := "HMAC", hashName := some "SHA-256" } rfl rfl rfl rfl⟩

/-- C8: uniform unauthenticated response.  For any two requests whose
bearer tokens are rejected by the shared authentication step — for any
reasons (missing token, malformed token, wrong algorithm, bad signature,
expired, not yet valid all surface as a rejected token) — both handlers
produce the identical client-visible response: status 401 with the fixed
error body, and the send handler leaves the store untouched; the failure
kind never reaches the response. -/
theorem C8 (mac1 mac2 : SubtleCrypto) (now1 now2 : Int) (kv : KVStore) (g m : Json)
    (gq : Option Str) (t1 t2 : Option Str) (ts : Str)
    (h1 : authRejected mac1 now1 t1 = true) (h2 : authRejected mac2 now2 t2 = true) :
    handleSendMessage mac1 now1 kv g m t1 ts = (kv, (401, invalidTokenBody)) ∧
    handleSendMessage mac2 now2 kv g m t2 ts = handleSendMessage mac1 now1 kv g m t1 ts ∧
    handleGetMessages mac1 now1 kv gq t1 = (401, invalidTokenBody) ∧
    handleGetMessages mac2 now2 kv gq t2 = handleGetMessages mac1 now1 kv gq t1 := by
  have hsend : ∀ mac now t, authRejected mac now t = true →
      handleSendMessage mac now kv g m t ts = (kv, (401, invalidTokenBody)) := by
    intro mac now t ht
    rw [authRejected.eq_def] at ht
    rw [handleSendMessage.eq_def]
    cases hu : getUsernameFromToken mac now t with
    | none => rfl
    | some u =>
      rw [hu] at ht
      dsimp only at ht
      dsimp only
      rw [if_neg (by simp at ht; simp [ht])]
  have hget : ∀ mac now t, authRejected mac now t = true →
      handleGetMessages mac now kv gq t = (401, invalidTokenBody) := by
    intro mac now t ht
    rw [authRejected.eq_def] at ht
    rw [handleGetMessages.eq_def]
    cases hu : getUsernameFromToken mac now t with
    | none => rfl
    | some u =>
      rw [hu] at ht
      dsimp only at ht
      dsimp only
      rw [if_neg (by simp at ht; simp [ht])]
  exact ⟨hsend mac1 now1 t1 h1,
    by rw [hsend mac1 now1 t1 h1, hsend mac2 now2 t2 h2],
    hget mac1 now1 t1 h1,
    by rw [hget mac1 now1 t1 h1, hget mac2 now2 t2 h2]⟩

theorem C8_witness :
    (authRejected toyMac 0 none = true ∧
     authRejected toyMac 0 (some ("bad").toList) = true) ∧
    (handleSendMessage toyMac 0 [] (Json.str ("g").toList) (Json.str ("m").toList)
       none ("t").toList = ([], (401, invalidTokenBody)) ∧
     handleSendMessage toyMac 0 [] (Json.str ("g").toList) (Json.str ("m").toList)
       (some ("bad").toList) ("t").toList =
       handleSendMessage toyMac 0 [] (Json.str ("g").toList) (Json.str ("m").toList)
         none ("t").toList ∧
     handleGetMessages toyMac 0 [] none none = (401, invalidTokenBody) ∧
     handleGetMessages toyMac 0 [] none (some ("bad").toList) =
       handleGetMessages toyMac 0 [] none none) :=
  ⟨⟨rfl, rfl⟩,
   C8 toyMac toyMac 0 0 [] (Json.str ("g").toList) (Json.str ("m").toList)
     none none (some ("bad").toList) (("t").toList) rfl rfl⟩

/-- C9: the exp helper.  Given an absolute instant (a `Date` carrying epoch
milliseconds), `getNumericDate` returns that instant's epoch seconds rounded
to the nearest whole second; given a relative offset of `s` seconds it
returns now-in-seconds plus `s`, rounded to the nearest whole second. -/
theorem C9 (nowMs ms s : Int) :
    getNumericDate nowMs (.date ms) = round ((ms : ℚ) / 1000) ∧
    getNumericDate nowMs (.seconds s) = round ((nowMs : ℚ) / 1000 + (s : ℚ)) := by
  constructor
  · exact jsRoundDiv1000_eq_round ms
  · rw [getNumericDate, jsRoundDiv1000_eq_round]
    congr 1
    push_cast
    ring

/-- C10: code bug.  `index.ts` passes a raw `Uint8Array` where djwt v2.4
requires a `CryptoKey | null`, so `generateToken` always throws the
`TypeError` from reading `.algorithm.name` of `undefined` — no token with
the documented header and payload (or any token at all) is ever issued, for
every crypto provider, time, and username. -/
theorem C10 (mac : SubtleCrypto) (nowMs : Int) (username : Str) :
    generateToken mac nowMs username = .error (.typeError typeErrorNameMsg) := rfl
